import Mathlib

/-!
A shallow embedding of the nrdcg/desec Go client library (desec.go, records.go,
tokens.go, the token-policies service and the cursor parser), together with
proofs about the embedded operations.

Conventions of the embedding:
* Pure Go functions become Lean functions on the same data.
* The single HTTP round trip every service operation performs is modelled by a
  `Transport` parameter (the behaviour of `httpClient.Do`): it either fails
  with a transport error or yields an `HttpResponse`.
* JSON documents are modelled by the `Json` inductive; the per-struct
  `encoding/json` marshalling dictated by the Go struct tags is spelled out
  field by field (`omitempty` fields are omitted at their zero value).
* Strings are processed as `List Char`; the model covers ASCII text, which is
  the character set the library's URLs and headers use.
* The relevant behaviour of the Go standard library (`path.Clean`, `path.Join`,
  `net/url` parsing, resolving and query encoding) is embedded from its
  documented rules, since the client's contracts depend on it.
-/

namespace Desec

/-- JSON values, modelling the documents Go's `encoding/json` exchanges. -/
inductive Json where
  | null : Json
  | bool (b : Bool) : Json
  | num (n : Int) : Json
  | str (s : String) : Json
  | arr (elems : List Json) : Json
  | obj (fields : List (String × Json)) : Json

/-! ### Character-list helpers shared by the path and query models -/

/-- Splits a character list at every occurrence of `sep`; models Go's
`strings.Split` on a one-character separator. -/
def splitSep (sep : Char) : List Char → List (List Char)
  | [] => [[]]
  | c :: rest =>
    if c = sep then [] :: splitSep sep rest
    else
      match splitSep sep rest with
      | [] => [[c]]
      | s :: ss => (c :: s) :: ss

/-- Splits at the first occurrence of `sep` (Go's `strings.Cut`): the part
before it and the part after it; when `sep` is absent the second part is
empty. -/
def cutSep (sep : Char) : List Char → List Char × List Char
  | [] => ([], [])
  | c :: rest =>
    if c = sep then ([], rest)
    else
      let (a, b) := cutSep sep rest
      (c :: a, b)

/-- Joins character lists with the separator `sep` between them
(`strings.Join`). -/
def joinSep (sep : Char) : List (List Char) → List Char
  | [] => []
  | [s] => s
  | s :: rest => s ++ sep :: joinSep sep rest

/-! ### Go `path.Clean` and `path.Join` -/

/-- The segment stack of `path.Clean`: empty and `.` segments are dropped,
`..` pops the previous segment when one is available, is dropped at the root
of a rooted path, and is kept in front of a relative path. -/
def cleanSegs (rooted : Bool) : List (List Char) → List (List Char) → List (List Char)
  | [], acc => acc
  | s :: rest, acc =>
    if s = [] ∨ s = ['.'] then cleanSegs rooted rest acc
    else if s = ['.', '.'] then
      if acc ≠ [] ∧ acc.getLast? ≠ some ['.', '.'] then cleanSegs rooted rest acc.dropLast
      else if rooted then cleanSegs rooted rest acc
      else cleanSegs rooted rest (acc ++ [['.', '.']])
    else cleanSegs rooted rest (acc ++ [s])

/-- Models Go's `path.Clean` through its documented rules: collapse multiple
slashes, drop `.` segments, resolve `..` segments, keep a leading slash, and
return `.` when everything vanishes. -/
def pathClean (p : String) : String :=
  match p.data with
  | [] => "."
  | c :: rest =>
    let rooted := c = '/'
    let body := if rooted then rest else c :: rest
    let segs := cleanSegs rooted (splitSep '/' body) []
    let out := (if rooted then ['/'] else []) ++ joinSep '/' segs
    if out = [] then "." else out.asString

/-- Models Go's `path.Join`: the non-empty elements joined with slashes and
cleaned; when every element is empty the result is empty. -/
def pathJoin (elems : List String) : String :=
  let es := elems.filter (fun e => e ≠ "")
  if es.isEmpty then "" else pathClean (joinSep '/' (es.map String.data)).asString

/-! ### The `net/url` fragment used by `createEndpoint` -/

/-- The components of a parsed URL tracked by this model (Go's `url.URL`). -/
structure GoURL where
  scheme : String
  host : String
  path : String
  rawQuery : String
  deriving DecidableEq

/-- Renders a `GoURL` back to a string (the `URL.String` method, for the URL
shapes of this model). -/
def GoURL.render (u : GoURL) : String :=
  u.scheme ++ "://" ++ u.host ++ u.path ++ (if u.rawQuery = "" then "" else "?" ++ u.rawQuery)

/-- Whether a character may follow the first letter of a URL scheme. -/
def isSchemeChar (c : Char) : Bool :=
  c.isAlpha || c.isDigit || c == '+' || c == '-' || c == '.'

/-- Whether a character list is a valid URL scheme (a letter followed by
letters, digits, `+`, `-` or `.`). -/
def validScheme : List Char → Bool
  | [] => false
  | c :: rest => c.isAlpha && rest.all isSchemeChar

/-- Models Go's `url.Parse` for absolute `scheme://host[/path][?query]` URLs,
the shape of every base URL this client works with; other shapes are outside
the model and yield `none`. Percent-escapes are not modelled (the library's
URLs are escape-free ASCII). -/
def urlParse (s : String) : Option GoURL :=
  let (schemeChars, rest) := cutSep ':' s.data
  if validScheme schemeChars then
    match rest with
    | '/' :: '/' :: rest2 =>
      let hostChars := rest2.takeWhile (fun c => c ≠ '/' ∧ c ≠ '?')
      let after := rest2.drop hostChars.length
      let (pathChars, queryChars) := cutSep '?' after
      some { scheme := schemeChars.asString, host := hostChars.asString,
             path := pathChars.asString, rawQuery := queryChars.asString }
    | _ => none
  else none

/-- Parses the reference string handed to `base.Parse` inside
`createEndpoint`: such a reference is a bare path, optionally carrying a
query. -/
def parseRef (ref : String) : String × String :=
  let (p, q) := cutSep '?' ref.data
  (p.asString, q.asString)

/-- The prefix of `base` up to and including its last slash (`base[:i+1]`
for `i` the index of the last `/`; empty when there is none), used when a
relative reference is merged with the base path. -/
def upToLastSlash : List Char → List Char
  | [] => []
  | c :: rest =>
    if '/' ∈ rest then c :: upToLastSlash rest
    else if c = '/' then ['/'] else []

/-- The merged path Go's `resolvePath` builds from the base path and the
reference path before removing dot segments. -/
def mergePaths (basePath refPath : String) : List Char :=
  if refPath = "" then basePath.data
  else if refPath.data.head? = some '/' then refPath.data
  else upToLastSlash basePath.data ++ refPath.data

/-- The dot-segment pass of Go's `resolvePath`: `.` is dropped, `..` pops a
segment, and a trailing `.` or `..` leaves a trailing slash. The Boolean
tracks whether the segment just processed was a dot segment. -/
def rdsSegs : List (List Char) → List (List Char) → Bool → List (List Char) × Bool
  | [], acc, t => (acc, t)
  | s :: rest, acc, _ =>
    if s = ['.'] then rdsSegs rest acc true
    else if s = ['.', '.'] then rdsSegs rest acc.dropLast true
    else rdsSegs rest (acc ++ [s]) false

/-- Removing dot segments from the merged path; like Go's `resolvePath`, the
output of a non-empty input always starts with a slash. -/
def removeDotSegments (full : List Char) : List Char :=
  if full = [] then []
  else
    let body := if full.head? = some '/' then full.tail else full
    let (segs, trailingDot) := rdsSegs (splitSep '/' body) [] false
    '/' :: joinSep '/' segs ++ (if trailingDot then ['/'] else [])

/-- Models `URL.ResolveReference` (what `base.Parse(ref)` does) for the
references `createEndpoint` produces: a scheme-less, host-less path
reference. The base query survives only when the reference has neither a
path nor a query. -/
def resolveRef (base : GoURL) (refPath refQuery : String) : GoURL :=
  { scheme := base.scheme
    host := base.host
    path := (removeDotSegments (mergePaths base.path refPath)).asString
    rawQuery := if refPath = "" ∧ refQuery = "" then base.rawQuery else refQuery }

/-- `Client.createEndpoint` (desec.go): parse the base URL, join its path
with the given parts through `path.Join`, resolve the joined path against
the base, then append the trailing slash. -/
def createEndpoint (baseURL : String) (parts : List String) : Option GoURL :=
  match urlParse baseURL with
  | none => none
  | some base =>
    let ref := pathJoin [base.path, pathJoin parts]
    let (refPath, refQuery) := parseRef ref
    let endpoint := resolveRef base refPath refQuery
    some { endpoint with path := endpoint.path ++ "/" }

/-! ### Go `url.Values`: query parsing and encoding -/

/-- Go's `url.Values`: keys associated with lists of values. The Go map is
unordered; the association list keeps first-insertion order and `valuesEncode`
sorts, so the encoded form agrees with Go's. -/
abbrev Values := List (String × List String)

/-- The `Values.Set` method: the key now maps to exactly the one value. -/
def valuesSet (vs : Values) (key value : String) : Values :=
  if vs.any (fun p => p.1 == key) then
    vs.map (fun p => if p.1 == key then (p.1, [value]) else p)
  else vs ++ [(key, [value])]

/-- The `Values.Add` method (used by query parsing): appends one more value
for the key. -/
def valuesAdd (vs : Values) (key value : String) : Values :=
  if vs.any (fun p => p.1 == key) then
    vs.map (fun p => if p.1 == key then (p.1, p.2 ++ [value]) else p)
  else vs ++ [(key, [value])]

/-- The `Values.Get` method: the first value of the key, or the empty string
when the key is absent. -/
def valuesGet (vs : Values) (key : String) : String :=
  match vs.lookup key with
  | some (v :: _) => v
  | _ => ""

/-- The characters `url.QueryEscape` leaves unescaped: letters, digits and
`-` `_` `.` `~`. -/
def isUnreservedQuery (c : Char) : Bool :=
  c.isAlpha || c.isDigit || c == '-' || c == '_' || c == '.' || c == '~'

/-- The upper-case hexadecimal digit of a value below 16. -/
def hexDigitUpper (n : Nat) : Char :=
  if n < 10 then Char.ofNat ('0'.toNat + n) else Char.ofNat ('A'.toNat + n - 10)

/-- The numeric value of a hexadecimal digit character. -/
def hexVal (c : Char) : Nat :=
  if '0' ≤ c ∧ c ≤ '9' then c.toNat - '0'.toNat
  else if 'A' ≤ c ∧ c ≤ 'F' then c.toNat - 'A'.toNat + 10
  else if 'a' ≤ c ∧ c ≤ 'f' then c.toNat - 'a'.toNat + 10
  else 0

/-- Whether a character is a hexadecimal digit. -/
def isHexDigit (c : Char) : Bool :=
  ('0' ≤ c && c ≤ '9') || ('A' ≤ c && c ≤ 'F') || ('a' ≤ c && c ≤ 'f')

/-- `url.QueryEscape` on one character (ASCII model): unreserved characters
stay, the space becomes `+`, everything else becomes `%XX`. -/
def queryEscapeChar (c : Char) : List Char :=
  if isUnreservedQuery c then [c]
  else if c = ' ' then ['+']
  else ['%', hexDigitUpper (c.toNat / 16), hexDigitUpper (c.toNat % 16)]

/-- `url.QueryEscape` over a character list. -/
def queryEscape : List Char → List Char
  | [] => []
  | c :: rest => queryEscapeChar c ++ queryEscape rest

/-- Models `url.QueryUnescape` leniently: a malformed escape is passed
through verbatim instead of failing (that failure path is not exercised by
this client's query strings). -/
def queryUnescape : List Char → List Char
  | [] => []
  | '+' :: rest => ' ' :: queryUnescape rest
  | '%' :: h :: l :: rest2 =>
    if isHexDigit h && isHexDigit l then
      Char.ofNat (16 * hexVal h + hexVal l) :: queryUnescape rest2
    else '%' :: h :: l :: queryUnescape rest2
  | '%' :: [h] => ['%', h]
  | ['%'] => ['%']
  | c :: rest => c :: queryUnescape rest

/-- One iteration of the `url.ParseQuery` loop: split the piece at its first
`=`, skip an empty key, unescape key and value and record them. -/
def parseQueryStep (acc : Values) (piece : List Char) : Values :=
  if piece = [] then acc
  else if (cutSep '=' piece).1 = [] then acc
  else
    valuesAdd acc (queryUnescape (cutSep '=' piece).1).asString
      (queryUnescape (cutSep '=' piece).2).asString

/-- Models `url.ParseQuery` as `URL.Query()` uses it (errors discarded):
split on `&` and run the loop step over the pieces. -/
def parseQuery (q : List Char) : Values :=
  if q = [] then [] else (splitSep '&' q).foldl parseQueryStep []

/-- A byte-wise string ordering (what `sort.Strings` uses), on the character
lists of the ASCII model. -/
def charListLe : List Char → List Char → Bool
  | [], _ => true
  | _ :: _, [] => false
  | a :: as, b :: bs => if a = b then charListLe as bs else decide (a < b)

/-- Inserts one entry into a key-sorted association list. -/
def insertSorted (p : String × List String) : Values → Values
  | [] => [p]
  | q :: rest =>
    if charListLe p.1.data q.1.data then p :: q :: rest else q :: insertSorted p rest

/-- Sorts a `Values` association list by key (insertion sort). -/
def sortByKey : Values → Values
  | [] => []
  | p :: rest => insertSorted p (sortByKey rest)

/-- Models `url.Values.Encode`: keys in sorted order, every key and value
query-escaped, pieces joined with `&`. -/
def valuesEncode (vs : Values) : List Char :=
  joinSep '&'
    ((sortByKey vs).flatMap (fun p =>
      p.2.map (fun v => queryEscape p.1.data ++ '=' :: queryEscape v.data)))

/-! ### The resource data model (records.go, tokens.go, the policies service) -/

/-- `ApexZone` (records.go): the apex zone name. -/
def ApexZone : String := "@"

/-- `IgnoreFilter` (records.go): the value marking a filter field as unused. -/
def IgnoreFilter : String := "#IGNORE#"

/-- `RRSet` (records.go). Go's `*time.Time` timestamps are modelled as
optional RFC 3339 strings; a `nil` Go slice and an empty one are both `[]`
(the distinction is not exercised by the claims). Field defaults are the Go
zero values, so a record literal omitting fields matches a Go composite
literal. -/
structure RRSet where
  Name : String := ""
  Domain : String := ""
  SubName : String := ""
  «Type» : String := ""
  Records : List String := []
  TTL : Int := 0
  Created : Option String := none
  Touched : Option String := none
  deriving DecidableEq

/-- `RRSetFilter` (records.go). -/
structure RRSetFilter where
  «Type» : String := ""
  SubName : String := ""
  deriving DecidableEq

/-- `FilterRRSetOnlyOnType`. -/
def FilterRRSetOnlyOnType (t : String) : RRSetFilter :=
  { «Type» := t, SubName := IgnoreFilter }

/-- `FilterRRSetOnlyOnSubName`. -/
def FilterRRSetOnlyOnSubName (n : String) : RRSetFilter :=
  { «Type» := IgnoreFilter, SubName := n }

/-- `Token` (tokens.go), with the same zero-value defaults as Go. -/
structure Token where
  ID : String := ""
  Created : Option String := none
  LastUsed : Option String := none
  Owner : String := ""
  UserOverride : String := ""
  Name : String := ""
  PermCreateDomain : Bool := false
  PermDeleteDomain : Bool := false
  PermManageTokens : Bool := false
  IsValid : Bool := false
  AllowedSubnets : List String := []
  AutoPolicy : Bool := false
  Value : String := ""
  deriving DecidableEq

/-- `TokenPolicy` (the token-policies service): the three scoping fields are
nullable pointers in Go, hence `Option String` here. -/
structure TokenPolicy where
  ID : String := ""
  Domain : Option String := none
  SubName : Option String := none
  «Type» : Option String := none
  WritePermission : Bool := false
  deriving DecidableEq

/-- `Cursors` (the cursor parser). -/
structure Cursors where
  First : String := ""
  Prev : String := ""
  Next : String := ""
  deriving DecidableEq

/-! ### `encoding/json` marshalling per the Go struct tags -/

/-- A nullable Go string pointer as JSON: `nil` is `null`. -/
def jsonOfNullableStr : Option String → Json
  | none => Json.null
  | some s => Json.str s

/-- Marshalling of `RRSet` per its tags: every field but `records` carries
`omitempty`; `records` is always present. -/
def marshalRRSet (r : RRSet) : Json :=
  Json.obj
    ((if r.Name = "" then [] else [("name", Json.str r.Name)]) ++
     (if r.Domain = "" then [] else [("domain", Json.str r.Domain)]) ++
     (if r.SubName = "" then [] else [("subname", Json.str r.SubName)]) ++
     (if r.«Type» = "" then [] else [("type", Json.str r.«Type»)]) ++
     [("records", Json.arr (r.Records.map Json.str))] ++
     (if r.TTL = 0 then [] else [("ttl", Json.num r.TTL)]) ++
     (match r.Created with | none => [] | some t => [("created", Json.str t)]) ++
     (match r.Touched with | none => [] | some t => [("touched", Json.str t)]))

/-- The field list `encoding/json` produces for a `Token`: the three
permission flags and `auto_policy` have no `omitempty`; everything else
does. -/
def tokenFields (t : Token) : List (String × Json) :=
  (if t.ID = "" then [] else [("id", Json.str t.ID)]) ++
    (match t.Created with | none => [] | some v => [("created", Json.str v)]) ++
     (match t.LastUsed with | none => [] | some v => [("last_used", Json.str v)]) ++
     (if t.Owner = "" then [] else [("owner", Json.str t.Owner)]) ++
     (if t.UserOverride = "" then [] else [("user_override", Json.str t.UserOverride)]) ++
     (if t.Name = "" then [] else [("name", Json.str t.Name)]) ++
     [("perm_create_domain", Json.bool t.PermCreateDomain),
      ("perm_delete_domain", Json.bool t.PermDeleteDomain),
      ("perm_manage_tokens", Json.bool t.PermManageTokens)] ++
     (if t.IsValid then [("is_valid", Json.bool t.IsValid)] else []) ++
     (if t.AllowedSubnets = [] then []
      else [("allowed_subnets", Json.arr (t.AllowedSubnets.map Json.str))]) ++
     [("auto_policy", Json.bool t.AutoPolicy)] ++
     (if t.Value = "" then [] else [("token", Json.str t.Value)])

/-- Marshalling of `Token` per its struct tags. -/
def marshalToken (t : Token) : Json := Json.obj (tokenFields t)

/-- The field list `encoding/json` produces for a `TokenPolicy`: `domain`,
`subname` and `type` carry no `omitempty`, so a `nil` pointer is serialized
as an explicit JSON `null`; `id` and `perm_write` carry `omitempty`. -/
def tokenPolicyFields (p : TokenPolicy) : List (String × Json) :=
  (if p.ID = "" then [] else [("id", Json.str p.ID)]) ++
    [("domain", jsonOfNullableStr p.Domain),
     ("subname", jsonOfNullableStr p.SubName),
     ("type", jsonOfNullableStr p.«Type»)] ++
    (if p.WritePermission then [("perm_write", Json.bool p.WritePermission)] else [])

/-- Marshalling of `TokenPolicy` per its struct tags. -/
def marshalTokenPolicy (p : TokenPolicy) : Json := Json.obj (tokenPolicyFields p)

/-- Decodes a plain string field: an absent key or `null` is the zero value,
a non-string value is a decode error. -/
def decStrField (fields : List (String × Json)) (k : String) : Option String :=
  match fields.lookup k with
  | none => some ""
  | some Json.null => some ""
  | some (Json.str s) => some s
  | some _ => none

/-- Decodes a nullable string pointer field: absent or `null` is `none`. -/
def decNullableStrField (fields : List (String × Json)) (k : String) :
    Option (Option String) :=
  match fields.lookup k with
  | none => some none
  | some Json.null => some none
  | some (Json.str s) => some (some s)
  | some _ => none

/-- Decodes a Boolean field: absent or `null` is `false`. -/
def decBoolField (fields : List (String × Json)) (k : String) : Option Bool :=
  match fields.lookup k with
  | none => some false
  | some Json.null => some false
  | some (Json.bool b) => some b
  | some _ => none

/-- Decodes an integer field: absent or `null` is `0`. -/
def decIntField (fields : List (String × Json)) (k : String) : Option Int :=
  match fields.lookup k with
  | none => some 0
  | some Json.null => some 0
  | some (Json.num n) => some n
  | some _ => none

/-- Decodes a string-list field: absent or `null` is `[]`. -/
def decStrListField (fields : List (String × Json)) (k : String) :
    Option (List String) :=
  match fields.lookup k with
  | none => some []
  | some Json.null => some []
  | some (Json.arr xs) =>
    xs.mapM (fun x => match x with | Json.str s => some s | _ => none)
  | some _ => none

/-- Unmarshalling of `RRSet`. -/
def unmarshalRRSet (j : Json) : Option RRSet :=
  match j with
  | Json.obj fields => do
    let name ← decStrField fields "name"
    let domain ← decStrField fields "domain"
    let subname ← decStrField fields "subname"
    let ty ← decStrField fields "type"
    let records ← decStrListField fields "records"
    let ttl ← decIntField fields "ttl"
    let created ← decNullableStrField fields "created"
    let touched ← decNullableStrField fields "touched"
    some { Name := name, Domain := domain, SubName := subname, «Type» := ty,
           Records := records, TTL := ttl, Created := created, Touched := touched }
  | _ => none

/-- Unmarshalling of a list of `RRSet`. -/
def unmarshalRRSetList (j : Json) : Option (List RRSet) :=
  match j with
  | Json.arr xs => xs.mapM unmarshalRRSet
  | Json.null => some []
  | _ => none

/-- Unmarshalling of `Token`. -/
def unmarshalToken (j : Json) : Option Token :=
  match j with
  | Json.obj fields => do
    let id ← decStrField fields "id"
    let created ← decNullableStrField fields "created"
    let lastUsed ← decNullableStrField fields "last_used"
    let owner ← decStrField fields "owner"
    let userOverride ← decStrField fields "user_override"
    let name ← decStrField fields "name"
    let permCreate ← decBoolField fields "perm_create_domain"
    let permDelete ← decBoolField fields "perm_delete_domain"
    let permManage ← decBoolField fields "perm_manage_tokens"
    let isValid ← decBoolField fields "is_valid"
    let subnets ← decStrListField fields "allowed_subnets"
    let autoPolicy ← decBoolField fields "auto_policy"
    let value ← decStrField fields "token"
    some { ID := id, Created := created, LastUsed := lastUsed, Owner := owner,
           UserOverride := userOverride, Name := name,
           PermCreateDomain := permCreate, PermDeleteDomain := permDelete,
           PermManageTokens := permManage, IsValid := isValid,
           AllowedSubnets := subnets, AutoPolicy := autoPolicy, Value := value }
  | _ => none

/-- Unmarshalling of `TokenPolicy`. -/
def unmarshalTokenPolicy (j : Json) : Option TokenPolicy :=
  match j with
  | Json.obj fields => do
    let id ← decStrField fields "id"
    let domain ← decNullableStrField fields "domain"
    let subname ← decNullableStrField fields "subname"
    let ty ← decNullableStrField fields "type"
    let write ← decBoolField fields "perm_write"
    some { ID := id, Domain := domain, SubName := subname, «Type» := ty,
           WritePermission := write }
  | _ => none

/-! ### The HTTP transport layer (desec.go) -/

/-- The parts of an `http.Request` the client constructs. -/
structure HttpRequest where
  method : String
  url : GoURL
  body : Option Json
  headers : List (String × String)

/-- The parts of an `http.Response` the client reads. -/
structure HttpResponse where
  statusCode : Nat
  body : Json

/-- The behaviour of one `httpClient.Do` round trip: a transport error or a
response. -/
abbrev Transport := HttpRequest → Except String HttpResponse

/-- The client configuration the operations read (desec.go `Client`). -/
structure Client where
  baseURL : String
  token : String
  deriving DecidableEq

/-- `defaultBaseURL` (desec.go). -/
def defaultBaseURL : String := "https://desec.io/api/v1/"

/-- `NewClient` (desec.go), restricted to the configuration the model
tracks. -/
def NewClient (token : String) : Client :=
  { baseURL := defaultBaseURL, token := token }

/-- `Client.newRequest` (desec.go): the JSON body is attached, the
`Content-Type` header is always set, and the `Authorization` header is set
exactly when a token is configured. (The newer client threads a `Context`
through this call; the context carries no data relevant to the model.) -/
def newRequest (c : Client) (method : String) (endpoint : GoURL)
    (reqBody : Option Json) : HttpRequest :=
  { method := method
    url := endpoint
    body := reqBody
    headers :=
      [("Content-Type", "application/json")] ++
        (if c.token ≠ "" then [("Authorization", "Token " ++ c.token)] else []) }

/-- `handleError` (desec.go): a 404 becomes the `NotFound` error, anything
else the generic `APIError`; the model only tracks the classification. -/
def handleError (resp : HttpResponse) : String :=
  if resp.statusCode = 404 then "NotFound" else "APIError"

/-! ### The records service (records.go)

Every Go service method performs endpoint construction, request construction
and one HTTP round trip in a single body.  The embedding splits each method
into the request it builds (`...Request`, `none` when `createEndpoint`
fails) and the method itself, which sends that request through the
`Transport` and handles the response exactly as the Go code does. -/

/-- `UpdateMode` (records.go): the HTTP method bulk updates use. -/
abbrev UpdateMode := String

/-- `FullResource` (records.go). -/
def FullResource : UpdateMode := "PUT"

/-- `OnlyFields` (records.go). -/
def OnlyFields : UpdateMode := "PATCH"

namespace RecordsService

/-- The request `RecordsService.GetAll` sends: filter fields equal to
`IgnoreFilter` are not written into the query. -/
def GetAllRequest (c : Client) (domainName : String) (filter : Option RRSetFilter) :
    Option HttpRequest :=
  match createEndpoint c.baseURL ["domains", domainName, "rrsets"] with
  | none => none
  | some endpoint =>
    let endpoint :=
      match filter with
      | none => endpoint
      | some f =>
        let query := parseQuery endpoint.rawQuery.data
        let query := if f.«Type» ≠ IgnoreFilter then valuesSet query "type" f.«Type» else query
        let query := if f.SubName ≠ IgnoreFilter then valuesSet query "subname" f.SubName else query
        { endpoint with rawQuery := (valuesEncode query).asString }
    some (newRequest c "GET" endpoint none)

/-- `RecordsService.GetAll`. -/
def GetAll (c : Client) (domainName : String) (filter : Option RRSetFilter)
    (transport : Transport) : Except String (List RRSet) :=
  match GetAllRequest c domainName filter with
  | none => Except.error "failed to create endpoint"
  | some req =>
    match transport req with
    | Except.error e => Except.error ("failed to call API: " ++ e)
    | Except.ok resp =>
      if resp.statusCode ≠ 200 then Except.error (handleError resp)
      else
        match unmarshalRRSetList resp.body with
        | none => Except.error "failed to umarshal response body"
        | some rrSets => Except.ok rrSets

/-- The request `RecordsService.Get` sends: an empty sub-name is replaced by
`ApexZone` before the endpoint is built. -/
def GetRequest (c : Client) (domainName subName recordType : String) :
    Option HttpRequest :=
  let subName := if subName = "" then ApexZone else subName
  match createEndpoint c.baseURL ["domains", domainName, "rrsets", subName, recordType] with
  | none => none
  | some endpoint => some (newRequest c "GET" endpoint none)

/-- `RecordsService.Get`. -/
def Get (c : Client) (domainName subName recordType : String)
    (transport : Transport) : Except String RRSet :=
  match GetRequest c domainName subName recordType with
  | none => Except.error "failed to create endpoint"
  | some req =>
    match transport req with
    | Except.error e => Except.error ("failed to call API: " ++ e)
    | Except.ok resp =>
      if resp.statusCode ≠ 200 then Except.error (handleError resp)
      else
        match unmarshalRRSet resp.body with
        | none => Except.error "failed to umarshal response body"
        | some rrSet => Except.ok rrSet

/-- The request `RecordsService.Update` sends (method PATCH); an empty
sub-name is replaced by `ApexZone` before the endpoint is built. -/
def UpdateRequest (c : Client) (domainName subName recordType : String)
    (rrSet : RRSet) : Option HttpRequest :=
  let subName := if subName = "" then ApexZone else subName
  match createEndpoint c.baseURL ["domains", domainName, "rrsets", subName, recordType] with
  | none => none
  | some endpoint => some (newRequest c "PATCH" endpoint (some (marshalRRSet rrSet)))

/-- `RecordsService.Update`: a 204 response (the record list was emptied)
yields `none` and no error; a 200 response yields the updated record set. -/
def Update (c : Client) (domainName subName recordType : String) (rrSet : RRSet)
    (transport : Transport) : Except String (Option RRSet) :=
  match UpdateRequest c domainName subName recordType rrSet with
  | none => Except.error "failed to create endpoint"
  | some req =>
    match transport req with
    | Except.error e => Except.error ("failed to call API: " ++ e)
    | Except.ok resp =>
      if resp.statusCode = 204 then Except.ok none
      else if resp.statusCode ≠ 200 then Except.error (handleError resp)
      else
        match unmarshalRRSet resp.body with
        | none => Except.error "failed to umarshal response body"
        | some updated => Except.ok (some updated)

/-- The request `RecordsService.Replace` sends (method PUT); an empty
sub-name is replaced by `ApexZone` before the endpoint is built. -/
def ReplaceRequest (c : Client) (domainName subName recordType : String)
    (rrSet : RRSet) : Option HttpRequest :=
  let subName := if subName = "" then ApexZone else subName
  match createEndpoint c.baseURL ["domains", domainName, "rrsets", subName, recordType] with
  | none => none
  | some endpoint => some (newRequest c "PUT" endpoint (some (marshalRRSet rrSet)))

/-- `RecordsService.Replace`: same 204 rule as `Update`. -/
def Replace (c : Client) (domainName subName recordType : String) (rrSet : RRSet)
    (transport : Transport) : Except String (Option RRSet) :=
  match ReplaceRequest c domainName subName recordType rrSet with
  | none => Except.error "failed to create endpoint"
  | some req =>
    match transport req with
    | Except.error e => Except.error ("failed to call API: " ++ e)
    | Except.ok resp =>
      if resp.statusCode = 204 then Except.ok none
      else if resp.statusCode ≠ 200 then Except.error (handleError resp)
      else
        match unmarshalRRSet resp.body with
        | none => Except.error "failed to umarshal response body"
        | some updated => Except.ok (some updated)

/-- The request `RecordsService.Delete` sends; an empty sub-name is replaced
by `ApexZone` before the endpoint is built. -/
def DeleteRequest (c : Client) (domainName subName recordType : String) :
    Option HttpRequest :=
  let subName := if subName = "" then ApexZone else subName
  match createEndpoint c.baseURL ["domains", domainName, "rrsets", subName, recordType] with
  | none => none
  | some endpoint => some (newRequest c "DELETE" endpoint none)

/-- `RecordsService.Delete`: success is 204. -/
def Delete (c : Client) (domainName subName recordType : String)
    (transport : Transport) : Except String Unit :=
  match DeleteRequest c domainName subName recordType with
  | none => Except.error "failed to create endpoint"
  | some req =>
    match transport req with
    | Except.error e => Except.error ("failed to call API: " ++ e)
    | Except.ok resp =>
      if resp.statusCode ≠ 204 then Except.error (handleError resp)
      else Except.ok ()

/-- The request `RecordsService.BulkUpdate` sends: the mode is the HTTP
method, the body the marshalled list. -/
def BulkUpdateRequest (c : Client) (mode : UpdateMode) (domainName : String)
    (rrSets : List RRSet) : Option HttpRequest :=
  match createEndpoint c.baseURL ["domains", domainName, "rrsets"] with
  | none => none
  | some endpoint =>
    some (newRequest c mode endpoint (some (Json.arr (rrSets.map marshalRRSet))))

/-- `RecordsService.BulkUpdate`. -/
def BulkUpdate (c : Client) (mode : UpdateMode) (domainName : String)
    (rrSets : List RRSet) (transport : Transport) : Except String (List RRSet) :=
  match BulkUpdateRequest c mode domainName rrSets with
  | none => Except.error "failed to create endpoint"
  | some req =>
    match transport req with
    | Except.error e => Except.error ("failed to call API: " ++ e)
    | Except.ok resp =>
      if resp.statusCode ≠ 200 then Except.error (handleError resp)
      else
        match unmarshalRRSetList resp.body with
        | none => Except.error "failed to umarshal response body"
        | some results => Except.ok results

/-- `RecordsService.BulkDelete`: every record list is forced empty, then the
work is delegated to `BulkUpdate` in `FullResource` mode; the bulk-update
result list is discarded. -/
def BulkDelete (c : Client) (domainName : String) (rrSets : List RRSet)
    (transport : Transport) : Except String Unit :=
  let deleteRRSets := rrSets.map (fun rrSet => { rrSet with Records := [] })
  match BulkUpdate c FullResource domainName deleteRRSets transport with
  | Except.error e => Except.error e
  | Except.ok _ => Except.ok ()

end RecordsService

/-! ### The tokens service (tokens.go) -/

namespace TokensService

/-- The request `TokensService.Get` sends. -/
def GetRequest (c : Client) (id : String) : Option HttpRequest :=
  match createEndpoint c.baseURL ["auth", "tokens", id] with
  | none => none
  | some endpoint => some (newRequest c "GET" endpoint none)

/-- `TokensService.Get`: a 404 yields `none` and no error; a 200 yields the
token; everything else is an error. -/
def Get (c : Client) (id : String) (transport : Transport) :
    Except String (Option Token) :=
  match GetRequest c id with
  | none => Except.error "failed to create endpoint"
  | some req =>
    match transport req with
    | Except.error e => Except.error ("failed to call API: " ++ e)
    | Except.ok resp =>
      if resp.statusCode = 404 then Except.ok none
      else if resp.statusCode ≠ 200 then Except.error (handleError resp)
      else
        match unmarshalToken resp.body with
        | none => Except.error "failed to umarshal response body"
        | some token => Except.ok (some token)

/-- The request `TokensService.Update` sends: a fresh `Token` literal copies
only the modifiable fields of the input, so everything else is at its zero
value and the `omitempty` tags keep it out of the body. -/
def UpdateRequest (c : Client) (id : String) (token : Token) : Option HttpRequest :=
  match createEndpoint c.baseURL ["auth", "tokens", id] with
  | none => none
  | some endpoint =>
    some (newRequest c "PATCH" endpoint (some (marshalToken
      { Owner := token.Owner
        UserOverride := token.UserOverride
        Name := token.Name
        PermCreateDomain := token.PermCreateDomain
        PermDeleteDomain := token.PermDeleteDomain
        PermManageTokens := token.PermManageTokens
        AllowedSubnets := token.AllowedSubnets
        AutoPolicy := token.AutoPolicy })))

/-- `TokensService.Update`. -/
def Update (c : Client) (id : String) (token : Token) (transport : Transport) :
    Except String Token :=
  match UpdateRequest c id token with
  | none => Except.error "failed to create endpoint"
  | some req =>
    match transport req with
    | Except.error e => Except.error ("failed to call API: " ++ e)
    | Except.ok resp =>
      if resp.statusCode ≠ 200 then Except.error (handleError resp)
      else
        match unmarshalToken resp.body with
        | none => Except.error "failed to umarshal response body"
        | some result => Except.ok result

end TokensService

/-! ### The token-policies service -/

namespace TokenPoliciesService

/-- The request `TokenPoliciesService.Create` sends: the policy marshalled
with explicit `null` scoping fields. -/
def CreateRequest (c : Client) (tokenID : String) (policy : TokenPolicy) :
    Option HttpRequest :=
  match createEndpoint c.baseURL ["auth", "tokens", tokenID, "policies", "rrsets"] with
  | none => none
  | some endpoint => some (newRequest c "POST" endpoint (some (marshalTokenPolicy policy)))

/-- `TokenPoliciesService.Create`: success is 201. -/
def Create (c : Client) (tokenID : String) (policy : TokenPolicy)
    (transport : Transport) : Except String TokenPolicy :=
  match CreateRequest c tokenID policy with
  | none => Except.error "failed to create endpoint"
  | some req =>
    match transport req with
    | Except.error e => Except.error ("failed to call API: " ++ e)
    | Except.ok resp =>
      if resp.statusCode ≠ 201 then Except.error (handleError resp)
      else
        match unmarshalTokenPolicy resp.body with
        | none => Except.error "failed to umarshal response body"
        | some tokenPolicy => Except.ok tokenPolicy

end TokenPoliciesService

/-! ### The cursor parser -/

/-- Models `url.ParseRequestURI`: an absolute URL as in `urlParse`, or a
rooted path reference; anything else is malformed. -/
def parseRequestURI (s : String) : Option GoURL :=
  match s.data with
  | [] => none
  | '/' :: _ =>
    let (p, q) := cutSep '?' s.data
    some { scheme := "", host := "", path := p.asString, rawQuery := q.asString }
  | _ => urlParse s

/-- The switch over the relation name inside the `parseCursor` loop: the
`cursor` query value is stored under its relation; other relations are
ignored. -/
def applyLink (c : Cursors) (s cursor : String) : Cursors :=
  match s with
  | "first" => { c with First := cursor }
  | "prev" => { c with Prev := cursor }
  | "next" => { c with Next := cursor }
  | _ => c

/-- The loop body of `parseCursor` over the parsed links: each link's URI is
parsed (a malformed URI aborts the whole parse) and its `cursor` query
parameter is stored under its relation. -/
def parseCursorLoop (c : Cursors) : List (String × String) → Option Cursors
  | [] => some c
  | (s, uri) :: rest =>
    match parseRequestURI uri with
    | none => none
    | some u =>
      parseCursorLoop (applyLink c s (valuesGet (parseQuery u.rawQuery.data) "cursor")) rest

/-- `parseCursor`: the `link` package's header parse is modelled by its
result, an association of relation names to URIs (a Go map, hence no
duplicate relations). -/
def parseCursor (links : List (String × String)) : Option Cursors :=
  parseCursorLoop { First := "", Prev := "", Next := "" } links

/-- A good path segment: non-empty, not a dot segment, and free of the two
characters (`/`, `?`) that would change how the built URL parses. -/
def goodSegChars (s : List Char) : Prop :=
  s ≠ [] ∧ s ≠ ['.'] ∧ s ≠ ['.', '.'] ∧ '/' ∉ s ∧ '?' ∉ s

instance (s : List Char) : Decidable (goodSegChars s) := by
  unfold goodSegChars; infer_instance

/-- A good path segment, on strings. -/
def goodSeg (s : String) : Prop := goodSegChars s.data

instance (s : String) : Decidable (goodSeg s) := by
  unfold goodSeg; infer_instance

/-- The base path of a parsed base URL, described by its list of segments:
either empty, or rooted with the given non-empty segments (empty segments
from doubled or trailing slashes are allowed and ignored). -/
def basePathSpec (p : String) (bsegs : List String) : Prop :=
  (p = "" ∧ bsegs = []) ∨
  (p.data.head? = some '/' ∧
   (splitSep '/' p.data.tail).filter (fun s => s ≠ []) = bsegs.map String.data ∧
   ∀ s ∈ splitSep '/' p.data.tail, s = [] ∨ goodSegChars s)

instance (p : String) (bsegs : List String) : Decidable (basePathSpec p bsegs) := by
  unfold basePathSpec; infer_instance

/-- Joins path segments with slashes (the path shape `createEndpoint`
produces between its leading and trailing slash). -/
def joinSegs (segs : List String) : String :=
  (joinSep '/' (segs.map String.data)).asString

/-! ## Lemmas: the character-list helpers -/

theorem splitSep_ne_nil (sep : Char) (l : List Char) : splitSep sep l ≠ [] := by
  induction l with
  | nil => simp [splitSep]
  | cons c rest ih =>
    by_cases h : c = sep
    · simp [splitSep, h]
    · cases hs : splitSep sep rest with
      | nil => exact absurd hs ih
      | cons s ss => simp [splitSep, h, hs]

theorem splitSep_append (sep : Char) (a b : List Char) :
    splitSep sep (a ++ sep :: b) = splitSep sep a ++ splitSep sep b := by
  induction a with
  | nil => simp [splitSep]
  | cons c rest ih =>
    by_cases h : c = sep
    · subst h
      simp [splitSep, ih]
    · cases hs : splitSep sep rest with
      | nil => exact absurd hs (splitSep_ne_nil sep rest)
      | cons s ss => simp [splitSep, h, ih, hs]

theorem splitSep_no_sep (sep : Char) (a : List Char) (h : sep ∉ a) :
    splitSep sep a = [a] := by
  induction a with
  | nil => simp [splitSep]
  | cons c rest ih =>
    have hc : ¬c = sep := fun hh => h (hh ▸ List.mem_cons_self c rest)
    have hr : sep ∉ rest := fun hh => h (List.mem_cons_of_mem c hh)
    simp [splitSep, hc, ih hr]

theorem cutSep_no_sep (sep : Char) (l : List Char) (h : sep ∉ l) :
    cutSep sep l = (l, []) := by
  induction l with
  | nil => simp [cutSep]
  | cons c rest ih =>
    have hc : ¬c = sep := fun hh => h (hh ▸ List.mem_cons_self c rest)
    have hr : sep ∉ rest := fun hh => h (List.mem_cons_of_mem c hh)
    simp [cutSep, hc, ih hr]

theorem cutSep_append (sep : Char) (a b : List Char) (h : sep ∉ a) :
    cutSep sep (a ++ sep :: b) = (a, b) := by
  induction a with
  | nil => simp [cutSep]
  | cons c rest ih =>
    have hc : ¬c = sep := fun hh => h (hh ▸ List.mem_cons_self c rest)
    have hr : sep ∉ rest := fun hh => h (List.mem_cons_of_mem c hh)
    simp [cutSep, hc, ih hr]

theorem joinSep_cons (sep : Char) (s : List Char) (rest : List (List Char))
    (h : rest ≠ []) : joinSep sep (s :: rest) = s ++ sep :: joinSep sep rest := by
  cases rest with
  | nil => exact absurd rfl h
  | cons t ts => rfl

theorem splitSep_joinSep (sep : Char) (segs : List (List Char)) (hne : segs ≠ [])
    (h : ∀ s ∈ segs, sep ∉ s) : splitSep sep (joinSep sep segs) = segs := by
  induction segs with
  | nil => exact absurd rfl hne
  | cons s rest ih =>
    cases rest with
    | nil => simpa [joinSep] using splitSep_no_sep sep s (h s (List.mem_cons_self s []))
    | cons t ts =>
      rw [joinSep_cons sep s (t :: ts) (by simp), splitSep_append,
        splitSep_no_sep sep s (h s (List.mem_cons_self s (t :: ts))),
        ih (by simp) (fun x hx => h x (List.mem_cons_of_mem s hx))]
      rfl

theorem not_mem_joinSep (sep c : Char) (hc : c ≠ sep) (segs : List (List Char))
    (h : ∀ s ∈ segs, c ∉ s) : c ∉ joinSep sep segs := by
  induction segs with
  | nil => simp [joinSep]
  | cons s rest ih =>
    cases rest with
    | nil => simpa [joinSep] using h s (List.mem_cons_self s [])
    | cons t ts =>
      rw [joinSep_cons sep s (t :: ts) (by simp)]
      intro hmem
      rcases List.mem_append.mp hmem with h1 | h2
      · exact h s (List.mem_cons_self s (t :: ts)) h1
      · rcases List.mem_cons.mp h2 with h3 | h4
        · exact hc h3
        · exact ih (fun x hx => h x (List.mem_cons_of_mem s hx)) h4

theorem joinSep_ne_nil (sep : Char) (s : List Char) (rest : List (List Char))
    (hs : s ≠ []) : joinSep sep (s :: rest) ≠ [] := by
  cases rest with
  | nil => simpa [joinSep]
  | cons t ts => rw [joinSep_cons sep s (t :: ts) (by simp)]; simp

theorem takeWhile_append_cons (p : Char → Bool) (a : List Char) (c : Char)
    (b : List Char) (ha : ∀ x ∈ a, p x = true) (hc : p c = false) :
    (a ++ c :: b).takeWhile p = a := by
  induction a with
  | nil => simp [List.takeWhile, hc]
  | cons x xs ih =>
    have hx : p x = true := ha x (List.mem_cons_self x xs)
    simp only [List.cons_append, List.takeWhile_cons, hx, if_true]
    rw [ih (fun y hy => ha y (List.mem_cons_of_mem x hy))]

theorem joinSep_head? (sep : Char) (s : List Char) (rest : List (List Char))
    (hs : s ≠ []) : (joinSep sep (s :: rest)).head? = s.head? := by
  cases rest with
  | nil => simp [joinSep]
  | cons t ts =>
    rw [joinSep_cons sep s (t :: ts) (by simp)]
    cases s with
    | nil => exact absurd rfl hs
    | cons c cs => simp

/-! ## Lemmas: `path.Clean`, `path.Join` and dot-segment removal on good segments -/

theorem cleanSegs_good (rooted : Bool) (segs acc : List (List Char))
    (h : ∀ s ∈ segs, s = [] ∨ goodSegChars s) :
    cleanSegs rooted segs acc = acc ++ segs.filter (fun s => s ≠ []) := by
  induction segs generalizing acc with
  | nil => simp [cleanSegs]
  | cons s rest ih =>
    have hrest : ∀ x ∈ rest, x = [] ∨ goodSegChars x :=
      fun x hx => h x (List.mem_cons_of_mem s hx)
    rcases h s (List.mem_cons_self s rest) with hs | hs
    · subst hs
      simp [cleanSegs, ih _ hrest]
    · obtain ⟨h1, h2, h3, -, -⟩ := hs
      rw [show cleanSegs rooted (s :: rest) acc = cleanSegs rooted rest (acc ++ [s]) by
            simp [cleanSegs, h1, h2, h3],
        ih _ hrest]
      simp [List.filter_cons, h1]

theorem rdsSegs_good (segs acc : List (List Char))
    (h : ∀ s ∈ segs, goodSegChars s) :
    rdsSegs segs acc false = (acc ++ segs, false) := by
  induction segs generalizing acc with
  | nil => simp [rdsSegs]
  | cons s rest ih =>
    obtain ⟨-, h2, h3, -, -⟩ := h s (List.mem_cons_self s rest)
    rw [show rdsSegs (s :: rest) acc false = rdsSegs rest (acc ++ [s]) false by
          simp [rdsSegs, h2, h3],
      ih _ (fun x hx => h x (List.mem_cons_of_mem s hx))]
    simp

/-- Unfolds `pathClean` on a path that does not start with a slash. -/
theorem pathClean_data_notroot (p : String) (c : Char) (tl : List Char)
    (hdata : p.data = c :: tl) (hc : ¬c = '/') :
    pathClean p =
      (if joinSep '/' (cleanSegs false (splitSep '/' (c :: tl)) []) = [] then "."
       else (joinSep '/' (cleanSegs false (splitSep '/' (c :: tl)) [])).asString) := by
  unfold pathClean
  rw [hdata]
  simp [hc]

/-- Unfolds `pathClean` on a path that starts with a slash. -/
theorem pathClean_data_root (p : String) (tl : List Char)
    (hdata : p.data = '/' :: tl) :
    pathClean p = ('/' :: joinSep '/' (cleanSegs true (splitSep '/' tl) [])).asString := by
  unfold pathClean
  rw [hdata]
  simp

/-- `path.Clean` leaves a relative path of good segments unchanged. -/
theorem pathClean_rel (p : String) (segs : List (List Char))
    (hp : p.data = joinSep '/' segs) (hne : segs ≠ [])
    (hgood : ∀ s ∈ segs, goodSegChars s) : pathClean p = p := by
  obtain ⟨s0, rest, rfl⟩ : ∃ s0 rest, segs = s0 :: rest := by
    cases segs with
    | nil => exact absurd rfl hne
    | cons a b => exact ⟨a, b, rfl⟩
  have hs0 : goodSegChars s0 := hgood s0 (List.mem_cons_self s0 rest)
  have hJne : joinSep '/' (s0 :: rest) ≠ [] := joinSep_ne_nil '/' s0 rest hs0.1
  obtain ⟨c, tl, hJ⟩ : ∃ c tl, joinSep '/' (s0 :: rest) = c :: tl := by
    cases hJJ : joinSep '/' (s0 :: rest) with
    | nil => exact absurd hJJ hJne
    | cons a b => exact ⟨a, b, rfl⟩
  have hcne : ¬c = '/' := by
    have hh := joinSep_head? '/' s0 rest hs0.1
    rw [hJ] at hh
    intro hcc
    cases s0 with
    | nil => exact hs0.1 rfl
    | cons d ds =>
      simp only [List.head?_cons] at hh
      have hd : d = '/' := by rw [← Option.some.inj hh]; exact hcc
      exact hs0.2.2.2.1 (by rw [← hd]; exact List.mem_cons_self d ds)
  rw [pathClean_data_notroot p c tl (hp.trans hJ) hcne, ← hJ,
    splitSep_joinSep '/' (s0 :: rest) hne (fun s hs => (hgood s hs).2.2.2.1),
    cleanSegs_good false (s0 :: rest) [] (fun s hs => Or.inr (hgood s hs))]
  have hfil : (s0 :: rest).filter (fun s => s ≠ []) = s0 :: rest :=
    List.filter_eq_self.mpr (fun s hs => by simpa using (hgood s hs).1)
  rw [List.nil_append, hfil, if_neg hJne]
  exact String.ext (by rw [hp]; rfl)

/-- `path.Clean` reduces a rooted path whose raw segments are empty or good
to the slash-joined list of its non-empty segments. -/
theorem pathClean_rooted (p : String) (body : List Char) (BS : List (List Char))
    (hp : p.data = '/' :: body)
    (hBS : (splitSep '/' body).filter (fun s => s ≠ []) = BS)
    (hgood : ∀ s ∈ splitSep '/' body, s = [] ∨ goodSegChars s) :
    pathClean p = ('/' :: joinSep '/' BS).asString := by
  rw [pathClean_data_root p body hp,
    cleanSegs_good true (splitSep '/' body) [] hgood, List.nil_append, hBS]

/-- Unfolds `removeDotSegments` on a rooted input. -/
theorem removeDotSegments_data_root (tl : List Char) :
    removeDotSegments ('/' :: tl) =
      '/' :: joinSep '/' (rdsSegs (splitSep '/' tl) [] false).1 ++
        (if (rdsSegs (splitSep '/' tl) [] false).2 = true then ['/'] else []) := by
  unfold removeDotSegments
  simp

/-- Unfolds `removeDotSegments` on a non-empty input that does not start with
a slash. -/
theorem removeDotSegments_data_notroot (full : List Char) (hne : full ≠ [])
    (hc : ¬full.head? = some '/') :
    removeDotSegments full =
      '/' :: joinSep '/' (rdsSegs (splitSep '/' full) [] false).1 ++
        (if (rdsSegs (splitSep '/' full) [] false).2 = true then ['/'] else []) := by
  unfold removeDotSegments
  rw [if_neg hne]
  simp [hc]

/-- Dot-segment removal leaves a rooted path of good segments unchanged. -/
theorem removeDotSegments_rooted (segs : List (List Char)) (hne : segs ≠ [])
    (h : ∀ s ∈ segs, goodSegChars s) :
    removeDotSegments ('/' :: joinSep '/' segs) = '/' :: joinSep '/' segs := by
  rw [removeDotSegments_data_root,
    splitSep_joinSep '/' segs hne (fun s hs => (h s hs).2.2.2.1), rdsSegs_good segs [] h]
  simp

/-- Dot-segment removal turns a relative path of good segments into the same
path with a leading slash. -/
theorem removeDotSegments_relative (segs : List (List Char)) (hne : segs ≠ [])
    (h : ∀ s ∈ segs, goodSegChars s) :
    removeDotSegments (joinSep '/' segs) = '/' :: joinSep '/' segs := by
  obtain ⟨s0, rest, rfl⟩ : ∃ s0 rest, segs = s0 :: rest := by
    cases segs with
    | nil => exact absurd rfl hne
    | cons a b => exact ⟨a, b, rfl⟩
  have hs0 : goodSegChars s0 := h s0 (List.mem_cons_self s0 rest)
  have hJne : joinSep '/' (s0 :: rest) ≠ [] := joinSep_ne_nil '/' s0 rest hs0.1
  have hhead : ¬(joinSep '/' (s0 :: rest)).head? = some '/' := by
    rw [joinSep_head? '/' s0 rest hs0.1]
    cases s0 with
    | nil => exact absurd rfl hs0.1
    | cons d ds =>
      simp only [List.head?_cons, Option.some.injEq]
      intro hd
      exact hs0.2.2.2.1 (by rw [← hd]; exact List.mem_cons_self d ds)
  rw [removeDotSegments_data_notroot (joinSep '/' (s0 :: rest)) hJne hhead,
    splitSep_joinSep '/' (s0 :: rest) hne (fun s hs => (h s hs).2.2.2.1),
    rdsSegs_good (s0 :: rest) [] h]
  simp

/-- `path.Join` of a non-empty list of good segments is just the slash join. -/
theorem pathJoin_good (parts : List String) (hne : parts ≠ [])
    (h : ∀ s ∈ parts, goodSeg s) :
    pathJoin parts = (joinSep '/' (parts.map String.data)).asString := by
  have hfil : parts.filter (fun e => e ≠ "") = parts :=
    List.filter_eq_self.mpr (fun s hs => by
      have := (h s hs).1
      simp only [ne_eq, decide_eq_true_eq]
      intro hc
      exact this (by rw [hc]))
  have hmne : parts.map String.data ≠ [] := by
    cases parts with
    | nil => exact absurd rfl hne
    | cons a b => simp
  have hmgood : ∀ s ∈ parts.map String.data, goodSegChars s := by
    intro s hs
    obtain ⟨x, hx, rfl⟩ := List.mem_map.mp hs
    exact h x hx
  unfold pathJoin
  rw [hfil, if_neg (by simpa [List.isEmpty_iff] using hne)]
  exact pathClean_rel _ (parts.map String.data) rfl hmne hmgood

/-! ## Lemmas: `createEndpoint` on well-described bases and good segments -/

theorem str_eq_empty_iff (s : String) : s = "" ↔ s.data = [] :=
  ⟨fun h => by rw [h], fun h => String.ext (h.trans rfl)⟩

theorem asString_ne_empty (l : List Char) (h : l ≠ []) : l.asString ≠ "" := by
  intro hh
  exact h ((str_eq_empty_iff l.asString).mp hh)

theorem parseRef_no_query (ref : String) (h : '?' ∉ ref.data) :
    parseRef ref = (ref, "") := by
  unfold parseRef
  rw [cutSep_no_sep '?' ref.data h]
  rfl

theorem resolveRef_rooted (base : GoURL) (refPath : String)
    (hne : ¬refPath = "") (hhead : refPath.data.head? = some '/')
    (hrds : removeDotSegments refPath.data = refPath.data) :
    resolveRef base refPath "" =
      { scheme := base.scheme, host := base.host, path := refPath, rawQuery := "" } := by
  unfold resolveRef mergePaths
  rw [if_neg hne, if_pos hhead, hrds,
    if_neg (fun hh : refPath = "" ∧ ("" : String) = "" => hne hh.1)]
  rfl

theorem resolveRef_relative (base : GoURL) (refPath : String)
    (hbase : base.path = "") (hne : ¬refPath = "")
    (hhead : ¬refPath.data.head? = some '/') :
    resolveRef base refPath "" =
      { scheme := base.scheme, host := base.host,
        path := (removeDotSegments refPath.data).asString, rawQuery := "" } := by
  unfold resolveRef mergePaths
  rw [if_neg hne, if_neg hhead, hbase,
    if_neg (fun hh : refPath = "" ∧ ("" : String) = "" => hne hh.1)]
  rfl

/-- Unfolds `createEndpoint` once the base URL parse and the reference parse
are known. -/
theorem createEndpoint_of_ref (baseURL : String) (base : GoURL) (parts : List String)
    (refPath refQuery : String)
    (hparse : urlParse baseURL = some base)
    (href : parseRef (pathJoin [base.path, pathJoin parts]) = (refPath, refQuery)) :
    createEndpoint baseURL parts =
      some { resolveRef base refPath refQuery with
             path := (resolveRef base refPath refQuery).path ++ "/" } := by
  have h : createEndpoint baseURL parts =
      some { resolveRef base (parseRef (pathJoin [base.path, pathJoin parts])).1
               (parseRef (pathJoin [base.path, pathJoin parts])).2 with
             path := (resolveRef base (parseRef (pathJoin [base.path, pathJoin parts])).1
               (parseRef (pathJoin [base.path, pathJoin parts])).2).path ++ "/" } := by
    unfold createEndpoint
    rw [hparse]
  rw [h, href]

/-- The central endpoint computation: for a parsed base URL whose path is
described by the segment list `bsegs` and for good extra segments `parts`,
`createEndpoint` yields the slash-wrapped concatenation of all segments and
an empty query (the base query is dropped by reference resolution). -/
theorem createEndpoint_eq (baseURL : String) (base : GoURL) (bsegs parts : List String)
    (hparse : urlParse baseURL = some base)
    (hbase : basePathSpec base.path bsegs)
    (hparts : ∀ s ∈ parts, goodSeg s)
    (hne : bsegs ++ parts ≠ []) :
    createEndpoint baseURL parts =
      some { scheme := base.scheme, host := base.host,
             path := "/" ++ joinSegs (bsegs ++ parts) ++ "/", rawQuery := "" } := by
  have hbsgood : ∀ s ∈ bsegs.map String.data, goodSegChars s := by
    rcases hbase with ⟨-, hb⟩ | ⟨-, hsegs, hgoodraw⟩
    · rw [hb]; intro s hs; simp at hs
    · intro s hs
      rw [← hsegs] at hs
      have hmem := List.mem_filter.mp hs
      rcases hgoodraw s hmem.1 with h0 | h0
      · exact absurd h0 (by simpa using hmem.2)
      · exact h0
  have hpgood : ∀ s ∈ parts.map String.data, goodSegChars s := by
    intro s hs
    obtain ⟨x, hx, rfl⟩ := List.mem_map.mp hs
    exact hparts x hx
  have hSEGSgood : ∀ s ∈ (bsegs ++ parts).map String.data, goodSegChars s := by
    intro s hs
    rw [List.map_append] at hs
    rcases List.mem_append.mp hs with h0 | h0
    · exact hbsgood s h0
    · exact hpgood s h0
  have hSEGSne : (bsegs ++ parts).map String.data ≠ [] := by
    intro hh
    exact hne (List.map_eq_nil_iff.mp hh)
  have hnoq : '?' ∉ ('/' : Char) :: joinSep '/' ((bsegs ++ parts).map String.data) := by
    intro hh
    rcases List.mem_cons.mp hh with h0 | h0
    · exact absurd h0 (by decide)
    · exact not_mem_joinSep '/' '?' (by decide) _ (fun s hs => (hSEGSgood s hs).2.2.2.2) h0
  have hrefstr_data : ((('/' : Char) :: joinSep '/' ((bsegs ++ parts).map String.data)).asString).data =
      ('/' : Char) :: joinSep '/' ((bsegs ++ parts).map String.data) := rfl
  have hrefstr_ne : (('/' : Char) :: joinSep '/' ((bsegs ++ parts).map String.data)).asString ≠ "" :=
    asString_ne_empty _ (by simp)
  have hrefstr_head : ((('/' : Char) :: joinSep '/' ((bsegs ++ parts).map String.data)).asString).data.head? =
      some '/' := rfl
  have hrefstr_rds : removeDotSegments ((('/' : Char) :: joinSep '/' ((bsegs ++ parts).map String.data)).asString).data =
      ((('/' : Char) :: joinSep '/' ((bsegs ++ parts).map String.data)).asString).data := by
    rw [hrefstr_data]
    exact removeDotSegments_rooted _ hSEGSne hSEGSgood
  have hpatheq : (('/' : Char) :: joinSep '/' ((bsegs ++ parts).map String.data)).asString ++ "/" =
      "/" ++ joinSegs (bsegs ++ parts) ++ "/" := by
    apply String.ext
    rw [String.data_append, String.data_append, String.data_append]
    rfl
  rcases hbase with ⟨hbp, hbs⟩ | ⟨hhead, hsegs, hgoodraw⟩
  · -- empty base path: the reference is the relative join of the parts
    subst hbs
    have hparts_ne : parts ≠ [] := by simpa using hne
    have hpd_ne : parts.map String.data ≠ [] := fun hh => hparts_ne (List.map_eq_nil_iff.mp hh)
    have hJne : joinSep '/' (parts.map String.data) ≠ [] := by
      cases hp : parts.map String.data with
      | nil => exact absurd hp hpd_ne
      | cons a b =>
        exact hp ▸ joinSep_ne_nil '/' a b (hpgood a (hp ▸ List.mem_cons_self a b)).1
    have hinner : pathJoin parts = (joinSep '/' (parts.map String.data)).asString :=
      pathJoin_good parts hparts_ne hparts
    have href : pathJoin [base.path, pathJoin parts] =
        (joinSep '/' (parts.map String.data)).asString := by
      rw [hbp, hinner]
      unfold pathJoin
      rw [show (["", (joinSep '/' (parts.map String.data)).asString].filter
            (fun e => e ≠ "")) = [(joinSep '/' (parts.map String.data)).asString] by
          simp [asString_ne_empty _ hJne]]
      rw [if_neg (by simp)]
      exact pathClean_rel _ (parts.map String.data) rfl hpd_ne hpgood
    have hrel_head : ¬((joinSep '/' (parts.map String.data)).asString).data.head? = some '/' := by
      cases hp : parts.map String.data with
      | nil => exact absurd hp hpd_ne
      | cons a b =>
        have ha : goodSegChars a := hpgood a (hp ▸ List.mem_cons_self a b)
        show ¬(joinSep '/' (a :: b)).head? = some '/'
        rw [joinSep_head? '/' a b ha.1]
        cases a with
        | nil => exact absurd rfl ha.1
        | cons d ds =>
          simp only [List.head?_cons, Option.some.injEq]
          intro hd
          exact ha.2.2.2.1 (by rw [← hd]; exact List.mem_cons_self d ds)
    have hnoqJ : '?' ∉ ((joinSep '/' (parts.map String.data)).asString).data := by
      show '?' ∉ joinSep '/' (parts.map String.data)
      intro hh
      exact hnoq (List.mem_cons_of_mem '/' (by simpa using hh))
    rw [createEndpoint_of_ref baseURL base parts
        ((joinSep '/' (parts.map String.data)).asString) "" hparse
        (by rw [href]; exact parseRef_no_query _ hnoqJ),
      resolveRef_relative base _ hbp (asString_ne_empty _ hJne) hrel_head]
    have hrds : removeDotSegments (((joinSep '/' (parts.map String.data)).asString).data) =
        ('/' : Char) :: joinSep '/' (parts.map String.data) := by
      show removeDotSegments (joinSep '/' (parts.map String.data)) = _
      exact removeDotSegments_relative _ hpd_ne hpgood
    rw [hrds]
    have hfin : (('/' : Char) :: joinSep '/' (parts.map String.data)).asString ++ "/" =
        "/" ++ joinSegs ([] ++ parts) ++ "/" := by simpa using hpatheq
    rw [hfin]
  · -- rooted base path
    obtain ⟨tl, htl⟩ : ∃ tl, base.path.data = '/' :: tl := by
      cases hp : base.path.data with
      | nil => rw [hp] at hhead; exact absurd hhead (by simp)
      | cons a b =>
        rw [hp] at hhead
        simp only [List.head?_cons, Option.some.injEq] at hhead
        exact ⟨b, by rw [hhead]⟩
    have htl_tail : base.path.data.tail = tl := by rw [htl]; rfl
    have hbase_ne : ¬base.path = "" := by
      intro hh
      rw [hh] at htl
      exact absurd htl (by simp)
    have hBS : (splitSep '/' tl).filter (fun s => s ≠ []) = bsegs.map String.data := by
      rw [← htl_tail]; exact hsegs
    have hgoodtl : ∀ s ∈ splitSep '/' tl, s = [] ∨ goodSegChars s := by
      rw [← htl_tail]; exact hgoodraw
    have href : pathJoin [base.path, pathJoin parts] =
        (('/' : Char) :: joinSep '/' ((bsegs ++ parts).map String.data)).asString := by
      by_cases hparts_nil : parts = []
      · -- no extra segments: the reference is the cleaned base path
        subst hparts_nil
        show pathJoin [base.path, ""] = _
        unfold pathJoin
        rw [show ([base.path, ""].filter (fun e => e ≠ "")) = [base.path] by
            simp [hbase_ne]]
        rw [if_neg (by simp [hbase_ne])]
        rw [show joinSep '/' ([base.path].map String.data) = base.path.data from rfl]
        rw [show (base.path.data.asString) = base.path from rfl]
        rw [pathClean_rooted base.path tl (bsegs.map String.data) htl hBS hgoodtl]
        simp
      · have hpd_ne : parts.map String.data ≠ [] :=
          fun hh => hparts_nil (List.map_eq_nil_iff.mp hh)
        have hJne : joinSep '/' (parts.map String.data) ≠ [] := by
          cases hp : parts.map String.data with
          | nil => exact absurd hp hpd_ne
          | cons a b =>
            exact hp ▸ joinSep_ne_nil '/' a b (hpgood a (hp ▸ List.mem_cons_self a b)).1
        rw [pathJoin_good parts hparts_nil hparts]
        unfold pathJoin
        rw [show ([base.path, (joinSep '/' (parts.map String.data)).asString].filter
              (fun e => e ≠ "")) =
            [base.path, (joinSep '/' (parts.map String.data)).asString] by
          simp [hbase_ne, asString_ne_empty _ hJne]]
        rw [if_neg (by simp)]
        have hdata : ((joinSep '/' ([base.path,
            (joinSep '/' (parts.map String.data)).asString].map String.data)).asString).data =
            '/' :: (tl ++ '/' :: joinSep '/' (parts.map String.data)) := by
          show joinSep '/' [base.path.data, joinSep '/' (parts.map String.data)] = _
          rw [joinSep_cons '/' base.path.data [joinSep '/' (parts.map String.data)] (by simp),
            htl]
          rfl
        rw [pathClean_rooted _ (tl ++ '/' :: joinSep '/' (parts.map String.data))
            ((bsegs ++ parts).map String.data) hdata ?hsplit ?hgall]
        case hsplit =>
          rw [splitSep_append, splitSep_joinSep '/' (parts.map String.data) hpd_ne
              (fun s hs => (hpgood s hs).2.2.2.1),
            List.filter_append, hBS,
            List.filter_eq_self.mpr (fun s hs => by simpa using (hpgood s hs).1),
            List.map_append]
        case hgall =>
          intro s hs
          rw [splitSep_append, splitSep_joinSep '/' (parts.map String.data) hpd_ne
              (fun x hx => (hpgood x hx).2.2.2.1)] at hs
          rcases List.mem_append.mp hs with h0 | h0
          · exact hgoodtl s h0
          · exact Or.inr (hpgood s h0)
    rw [createEndpoint_of_ref baseURL base parts
        ((('/' : Char) :: joinSep '/' ((bsegs ++ parts).map String.data)).asString) "" hparse
        (by rw [href]; exact parseRef_no_query _ (by rw [hrefstr_data]; exact hnoq)),
      resolveRef_rooted base _ hrefstr_ne hrefstr_head hrefstr_rds]
    rw [hpatheq]

/-- The path produced by `createEndpoint` satisfies `basePathSpec` for the
same segments, so a produced URL can serve as a base URL again. -/
theorem basePathSpec_produced (segs : List String) (hgood : ∀ s ∈ segs, goodSeg s)
    (hne : segs ≠ []) : basePathSpec ("/" ++ joinSegs segs ++ "/") segs := by
  have hmgood : ∀ s ∈ segs.map String.data, goodSegChars s := by
    intro s hs
    obtain ⟨x, hx, rfl⟩ := List.mem_map.mp hs
    exact hgood x hx
  have hmne : segs.map String.data ≠ [] := fun hh => hne (List.map_eq_nil_iff.mp hh)
  have hdata : ("/" ++ joinSegs segs ++ "/").data =
      '/' :: (joinSep '/' (segs.map String.data) ++ '/' :: []) := by
    rw [String.data_append, String.data_append]
    rfl
  refine Or.inr ⟨by rw [hdata]; rfl, ?_, ?_⟩
  · rw [hdata, List.tail_cons, splitSep_append,
      splitSep_joinSep '/' (segs.map String.data) hmne
        (fun s hs => (hmgood s hs).2.2.2.1),
      List.filter_append,
      List.filter_eq_self.mpr (fun s hs => by simpa using (hmgood s hs).1)]
    simp [splitSep]
  · intro s hs
    rw [hdata, List.tail_cons, splitSep_append,
      splitSep_joinSep '/' (segs.map String.data) hmne
        (fun x hx => (hmgood x hx).2.2.2.1)] at hs
    rcases List.mem_append.mp hs with h0 | h0
    · exact Or.inr (hmgood s h0)
    · rcases (by simpa [splitSep] using h0 : s = []) with rfl
      exact Or.inl rfl

/-- Re-building from a produced endpoint with no further segments reproduces
the endpoint (the idempotence direction of the endpoint builder). -/
theorem createEndpoint_rebuild (b2 : String) (ep : GoURL) (segs : List String)
    (hgood : ∀ s ∈ segs, goodSeg s) (hne : segs ≠ [])
    (hparse : urlParse b2 = some ep)
    (hpath : ep.path = "/" ++ joinSegs segs ++ "/")
    (hq : ep.rawQuery = "") :
    createEndpoint b2 [] = some ep := by
  have hmain := createEndpoint_eq b2 ep segs [] hparse
    (by rw [hpath]; exact basePathSpec_produced segs hgood hne)
    (by intro s hs; simp at hs) (by simpa using hne)
  rw [hmain]
  cases ep with
  | mk s h p q =>
    simp only at hpath hq
    simp [Option.some.injEq, GoURL.mk.injEq, hpath, hq]

/-! ## Lemmas: query escaping round-trips on ASCII text -/

theorem hexFacts (k : Nat) (hk : k < 16) :
    hexVal (hexDigitUpper k) = k ∧ isHexDigit (hexDigitUpper k) = true ∧
      ¬hexDigitUpper k = '&' ∧ ¬hexDigitUpper k = '=' := by
  have hall : ∀ m : Fin 16, hexVal (hexDigitUpper m.val) = m.val ∧
      isHexDigit (hexDigitUpper m.val) = true ∧
      ¬hexDigitUpper m.val = '&' ∧ ¬hexDigitUpper m.val = '=' := by decide
  exact hall ⟨k, hk⟩

theorem queryEscapeChar_ne_nil (c : Char) : queryEscapeChar c ≠ [] := by
  unfold queryEscapeChar
  split
  · simp
  · split <;> simp

theorem queryEscapeChar_no_special (c : Char) (hc : c.toNat < 128) :
    ∀ x ∈ queryEscapeChar c, ¬x = '&' ∧ ¬x = '=' := by
  by_cases h1 : isUnreservedQuery c = true
  · intro x hx
    rw [show queryEscapeChar c = [c] by simp [queryEscapeChar, h1]] at hx
    rcases List.mem_singleton.mp hx with rfl
    constructor
    · intro hh; rw [hh] at h1; exact absurd h1 (by decide)
    · intro hh; rw [hh] at h1; exact absurd h1 (by decide)
  · by_cases h2 : c = ' '
    · intro x hx
      rw [show queryEscapeChar c = ['+'] by rw [h2]; decide] at hx
      rcases List.mem_singleton.mp hx with rfl
      exact ⟨by decide, by decide⟩
    · intro x hx
      rw [show queryEscapeChar c =
          ['%', hexDigitUpper (c.toNat / 16), hexDigitUpper (c.toNat % 16)] by
        simp [queryEscapeChar, h1, h2]] at hx
      have hdiv : c.toNat / 16 < 16 := Nat.div_lt_of_lt_mul (by omega)
      have hmod : c.toNat % 16 < 16 := Nat.mod_lt _ (by norm_num)
      rcases List.mem_cons.mp hx with rfl | hx2
      · exact ⟨by decide, by decide⟩
      rcases List.mem_cons.mp hx2 with rfl | hx3
      · exact ⟨(hexFacts _ hdiv).2.2.1, (hexFacts _ hdiv).2.2.2⟩
      rcases List.mem_singleton.mp hx3 with rfl
      exact ⟨(hexFacts _ hmod).2.2.1, (hexFacts _ hmod).2.2.2⟩

theorem queryEscape_no_special (l : List Char) (h : ∀ c ∈ l, c.toNat < 128) :
    ∀ x ∈ queryEscape l, ¬x = '&' ∧ ¬x = '=' := by
  induction l with
  | nil => intro x hx; simp [queryEscape] at hx
  | cons c rest ih =>
    intro x hx
    rw [show queryEscape (c :: rest) = queryEscapeChar c ++ queryEscape rest from rfl] at hx
    rcases List.mem_append.mp hx with h0 | h0
    · exact queryEscapeChar_no_special c (h c (List.mem_cons_self c rest)) x h0
    · exact ih (fun d hd => h d (List.mem_cons_of_mem c hd)) x h0

theorem amp_not_mem_queryEscape (l : List Char) (h : ∀ c ∈ l, c.toNat < 128) :
    '&' ∉ queryEscape l :=
  fun hmem => (queryEscape_no_special l h '&' hmem).1 rfl

theorem eq_not_mem_queryEscape (l : List Char) (h : ∀ c ∈ l, c.toNat < 128) :
    '=' ∉ queryEscape l :=
  fun hmem => (queryEscape_no_special l h '=' hmem).2 rfl

theorem queryEscape_ne_nil (l : List Char) (h : l ≠ []) : queryEscape l ≠ [] := by
  cases l with
  | nil => exact absurd rfl h
  | cons c rest =>
    rw [show queryEscape (c :: rest) = queryEscapeChar c ++ queryEscape rest from rfl]
    simp [queryEscapeChar_ne_nil c]

theorem queryUnescape_plus (rest : List Char) :
    queryUnescape ('+' :: rest) = ' ' :: queryUnescape rest := by
  simp [queryUnescape]

theorem queryUnescape_plain (c : Char) (rest : List Char) (h1 : ¬c = '+')
    (h2 : ¬c = '%') : queryUnescape (c :: rest) = c :: queryUnescape rest := by
  cases rest with
  | nil => simp [queryUnescape, h1, h2]
  | cons d ds =>
    cases ds with
    | nil => simp [queryUnescape, h1, h2]
    | cons e es => simp [queryUnescape, h1, h2]

theorem queryUnescape_pct (h l : Char) (rest : List Char) (hh : isHexDigit h = true)
    (hl : isHexDigit l = true) :
    queryUnescape ('%' :: h :: l :: rest) =
      Char.ofNat (16 * hexVal h + hexVal l) :: queryUnescape rest := by
  simp [queryUnescape, hh, hl]

theorem queryUnescape_escapeChar (c : Char) (hc : c.toNat < 128) (rest : List Char) :
    queryUnescape (queryEscapeChar c ++ rest) = c :: queryUnescape rest := by
  by_cases h1 : isUnreservedQuery c = true
  · have hplus : ¬c = '+' := by intro hh; rw [hh] at h1; exact absurd h1 (by decide)
    have hpct : ¬c = '%' := by intro hh; rw [hh] at h1; exact absurd h1 (by decide)
    rw [show queryEscapeChar c = [c] by simp [queryEscapeChar, h1]]
    exact queryUnescape_plain c rest hplus hpct
  · by_cases h2 : c = ' '
    · rw [show queryEscapeChar c = ['+'] by rw [h2]; decide, h2]
      exact queryUnescape_plus rest
    · rw [show queryEscapeChar c =
          ['%', hexDigitUpper (c.toNat / 16), hexDigitUpper (c.toNat % 16)] by
        simp [queryEscapeChar, h1, h2]]
      have hdiv : c.toNat / 16 < 16 := Nat.div_lt_of_lt_mul (by omega)
      have hmod : c.toNat % 16 < 16 := Nat.mod_lt _ (by norm_num)
      rw [List.cons_append, List.cons_append, List.cons_append, List.nil_append,
        queryUnescape_pct _ _ _ (hexFacts _ hdiv).2.1 (hexFacts _ hmod).2.1,
        (hexFacts _ hdiv).1, (hexFacts _ hmod).1, Nat.div_add_mod, Char.ofNat_toNat]

theorem queryUnescape_queryEscape (l : List Char) (h : ∀ c ∈ l, c.toNat < 128) :
    queryUnescape (queryEscape l) = l := by
  induction l with
  | nil => rfl
  | cons c rest ih =>
    rw [show queryEscape (c :: rest) = queryEscapeChar c ++ queryEscape rest from rfl,
      queryUnescape_escapeChar c (h c (List.mem_cons_self c rest)),
      ih (fun d hd => h d (List.mem_cons_of_mem c hd))]

/-! ## Lemmas: `parseQuery` recovers encoded values -/

theorem amp_not_mem_piece (k v : List Char) (hak : ∀ c ∈ k, c.toNat < 128)
    (hav : ∀ c ∈ v, c.toNat < 128) :
    '&' ∉ queryEscape k ++ '=' :: queryEscape v := by
  intro hm
  rcases List.mem_append.mp hm with h0 | h0
  · exact amp_not_mem_queryEscape k hak h0
  · rcases List.mem_cons.mp h0 with h1 | h1
    · exact absurd h1 (by decide)
    · exact amp_not_mem_queryEscape v hav h1

theorem parseQueryStep_eq (acc : Values) (k v : List Char) (hk : k ≠ [])
    (hkeq : '=' ∉ k) :
    parseQueryStep acc (k ++ '=' :: v) =
      valuesAdd acc (queryUnescape k).asString (queryUnescape v).asString := by
  unfold parseQueryStep
  rw [cutSep_append '=' k v hkeq]
  rw [if_neg (by simp), if_neg hk]

theorem parseQuery_encode_one (k v : String) (hk : k.data ≠ [])
    (hak : ∀ c ∈ k.data, c.toNat < 128) (hav : ∀ c ∈ v.data, c.toNat < 128) :
    parseQuery (queryEscape k.data ++ '=' :: queryEscape v.data) = [(k, [v])] := by
  unfold parseQuery
  rw [if_neg (by simp),
    splitSep_no_sep '&' _ (amp_not_mem_piece k.data v.data hak hav),
    List.foldl_cons, List.foldl_nil,
    parseQueryStep_eq [] _ _ (queryEscape_ne_nil k.data hk) (eq_not_mem_queryEscape k.data hak),
    queryUnescape_queryEscape k.data hak, queryUnescape_queryEscape v.data hav]
  rfl

theorem parseQuery_encode_two (k1 v1 k2 v2 : String)
    (hk1 : k1.data ≠ []) (hk2 : k2.data ≠ [])
    (hak1 : ∀ c ∈ k1.data, c.toNat < 128) (hav1 : ∀ c ∈ v1.data, c.toNat < 128)
    (hak2 : ∀ c ∈ k2.data, c.toNat < 128) (hav2 : ∀ c ∈ v2.data, c.toNat < 128) :
    parseQuery ((queryEscape k1.data ++ '=' :: queryEscape v1.data) ++
        '&' :: (queryEscape k2.data ++ '=' :: queryEscape v2.data)) =
      valuesAdd (valuesAdd [] k1 v1) k2 v2 := by
  unfold parseQuery
  rw [if_neg (by simp), splitSep_append,
    splitSep_no_sep '&' _ (amp_not_mem_piece k1.data v1.data hak1 hav1),
    splitSep_no_sep '&' _ (amp_not_mem_piece k2.data v2.data hak2 hav2)]
  rw [show ([queryEscape k1.data ++ '=' :: queryEscape v1.data] ++
      [queryEscape k2.data ++ '=' :: queryEscape v2.data]) =
    [queryEscape k1.data ++ '=' :: queryEscape v1.data,
     queryEscape k2.data ++ '=' :: queryEscape v2.data] from rfl]
  rw [List.foldl_cons, List.foldl_cons, List.foldl_nil,
    parseQueryStep_eq [] _ _ (queryEscape_ne_nil k1.data hk1) (eq_not_mem_queryEscape k1.data hak1),
    queryUnescape_queryEscape k1.data hak1, queryUnescape_queryEscape v1.data hav1,
    parseQueryStep_eq _ _ _ (queryEscape_ne_nil k2.data hk2) (eq_not_mem_queryEscape k2.data hak2),
    queryUnescape_queryEscape k2.data hak2, queryUnescape_queryEscape v2.data hav2]
  rfl

/-! ## Lemmas: the cursor-parser loop -/

theorem applyLink_first (c : Cursors) (k : String) :
    (applyLink c "first" k).First = k := rfl

theorem applyLink_prev (c : Cursors) (k : String) :
    (applyLink c "prev" k).Prev = k := rfl

theorem applyLink_next (c : Cursors) (k : String) :
    (applyLink c "next" k).Next = k := rfl

theorem applyLink_First_of_ne (c : Cursors) (s k : String) (h : ¬s = "first") :
    (applyLink c s k).First = c.First := by
  unfold applyLink
  split <;> simp_all

theorem applyLink_Prev_of_ne (c : Cursors) (s k : String) (h : ¬s = "prev") :
    (applyLink c s k).Prev = c.Prev := by
  unfold applyLink
  split <;> simp_all

theorem applyLink_Next_of_ne (c : Cursors) (s k : String) (h : ¬s = "next") :
    (applyLink c s k).Next = c.Next := by
  unfold applyLink
  split <;> simp_all

theorem parseCursorLoop_cons_none (c : Cursors) (s uri : String)
    (rest : List (String × String)) (hu : parseRequestURI uri = none) :
    parseCursorLoop c ((s, uri) :: rest) = none := by
  conv_lhs => rw [parseCursorLoop]
  rw [hu]

theorem parseCursorLoop_cons_some (c : Cursors) (s uri : String)
    (rest : List (String × String)) (u : GoURL) (hu : parseRequestURI uri = some u) :
    parseCursorLoop c ((s, uri) :: rest) =
      parseCursorLoop (applyLink c s (valuesGet (parseQuery u.rawQuery.data) "cursor")) rest := by
  conv_lhs => rw [parseCursorLoop]
  rw [hu]

theorem parseCursorLoop_isSome (links : List (String × String))
    (h : ∀ p ∈ links, (parseRequestURI p.2).isSome = true) (c : Cursors) :
    ∃ res, parseCursorLoop c links = some res := by
  induction links generalizing c with
  | nil => exact ⟨c, rfl⟩
  | cons q rest ih =>
    obtain ⟨s, uri⟩ := q
    cases hu : parseRequestURI uri with
    | none =>
      have := h (s, uri) (List.mem_cons_self (s, uri) rest)
      rw [hu] at this
      simp at this
    | some u =>
      rw [parseCursorLoop_cons_some c s uri rest u hu]
      exact ih (fun p hp => h p (List.mem_cons_of_mem (s, uri) hp)) _

theorem parseCursorLoop_malformed (links : List (String × String))
    (p : String × String) (hmem : p ∈ links) (hbad : parseRequestURI p.2 = none)
    (c : Cursors) : parseCursorLoop c links = none := by
  induction links generalizing c with
  | nil => simp at hmem
  | cons q rest ih =>
    obtain ⟨s, uri⟩ := q
    cases hu : parseRequestURI uri with
    | none => exact parseCursorLoop_cons_none c s uri rest hu
    | some u =>
      rw [parseCursorLoop_cons_some c s uri rest u hu]
      rcases List.mem_cons.mp hmem with rfl | hmem2
      · rw [hbad] at hu; cases hu
      · exact ih hmem2 _

theorem parseCursorLoop_First_absent (links : List (String × String))
    (h : ∀ w, ("first", w) ∉ links) (c : Cursors) (res : Cursors)
    (hres : parseCursorLoop c links = some res) : res.First = c.First := by
  induction links generalizing c with
  | nil =>
    have : c = res := Option.some.inj hres
    rw [← this]
  | cons q rest ih =>
    obtain ⟨s, uri⟩ := q
    cases hu : parseRequestURI uri with
    | none => rw [parseCursorLoop_cons_none c s uri rest hu] at hres; cases hres
    | some u =>
      rw [parseCursorLoop_cons_some c s uri rest u hu] at hres
      have hs : ¬s = "first" := fun hh => h uri (by rw [← hh]; exact List.mem_cons_self _ rest)
      rw [ih (fun w hw => h w (List.mem_cons_of_mem (s, uri) hw)) _ hres,
        applyLink_First_of_ne c s _ hs]

theorem parseCursorLoop_Prev_absent (links : List (String × String))
    (h : ∀ w, ("prev", w) ∉ links) (c : Cursors) (res : Cursors)
    (hres : parseCursorLoop c links = some res) : res.Prev = c.Prev := by
  induction links generalizing c with
  | nil =>
    have : c = res := Option.some.inj hres
    rw [← this]
  | cons q rest ih =>
    obtain ⟨s, uri⟩ := q
    cases hu : parseRequestURI uri with
    | none => rw [parseCursorLoop_cons_none c s uri rest hu] at hres; cases hres
    | some u =>
      rw [parseCursorLoop_cons_some c s uri rest u hu] at hres
      have hs : ¬s = "prev" := fun hh => h uri (by rw [← hh]; exact List.mem_cons_self _ rest)
      rw [ih (fun w hw => h w (List.mem_cons_of_mem (s, uri) hw)) _ hres,
        applyLink_Prev_of_ne c s _ hs]

theorem parseCursorLoop_Next_absent (links : List (String × String))
    (h : ∀ w, ("next", w) ∉ links) (c : Cursors) (res : Cursors)
    (hres : parseCursorLoop c links = some res) : res.Next = c.Next := by
  induction links generalizing c with
  | nil =>
    have : c = res := Option.some.inj hres
    rw [← this]
  | cons q rest ih =>
    obtain ⟨s, uri⟩ := q
    cases hu : parseRequestURI uri with
    | none => rw [parseCursorLoop_cons_none c s uri rest hu] at hres; cases hres
    | some u =>
      rw [parseCursorLoop_cons_some c s uri rest u hu] at hres
      have hs : ¬s = "next" := fun hh => h uri (by rw [← hh]; exact List.mem_cons_self _ rest)
      rw [ih (fun w hw => h w (List.mem_cons_of_mem (s, uri) hw)) _ hres,
        applyLink_Next_of_ne c s _ hs]

theorem parseCursorLoop_First_mem (links : List (String × String))
    (hnd : (links.map Prod.fst).Nodup) (u : String) (hmem : ("first", u) ∈ links)
    (uu : GoURL) (hu : parseRequestURI u = some uu) (c : Cursors) (res : Cursors)
    (hres : parseCursorLoop c links = some res) :
    res.First = valuesGet (parseQuery uu.rawQuery.data) "cursor" := by
  induction links generalizing c with
  | nil => simp at hmem
  | cons q rest ih =>
    obtain ⟨s, uri⟩ := q
    rcases List.mem_cons.mp hmem with heq | hmem2
    · obtain ⟨hs, huri⟩ := Prod.mk.injEq .. ▸ heq
      rw [← hs, ← huri] at hres
      rw [parseCursorLoop_cons_some _ _ _ _ uu hu] at hres
      have hnofirst : ∀ w, ("first", w) ∉ rest := by
        intro w hw
        have : "first" ∈ rest.map Prod.fst := List.mem_map.mpr ⟨("first", w), hw, rfl⟩
        rw [List.map_cons, ← hs] at hnd
        exact (List.nodup_cons.mp hnd).1 this
      rw [parseCursorLoop_First_absent rest hnofirst _ res hres, applyLink_first]
    · cases hu2 : parseRequestURI uri with
      | none => rw [parseCursorLoop_cons_none c s uri rest hu2] at hres; cases hres
      | some w =>
        rw [parseCursorLoop_cons_some c s uri rest w hu2] at hres
        exact ih (by rw [List.map_cons] at hnd; exact (List.nodup_cons.mp hnd).2) hmem2 _ hres

theorem parseCursorLoop_Prev_mem (links : List (String × String))
    (hnd : (links.map Prod.fst).Nodup) (u : String) (hmem : ("prev", u) ∈ links)
    (uu : GoURL) (hu : parseRequestURI u = some uu) (c : Cursors) (res : Cursors)
    (hres : parseCursorLoop c links = some res) :
    res.Prev = valuesGet (parseQuery uu.rawQuery.data) "cursor" := by
  induction links generalizing c with
  | nil => simp at hmem
  | cons q rest ih =>
    obtain ⟨s, uri⟩ := q
    rcases List.mem_cons.mp hmem with heq | hmem2
    · obtain ⟨hs, huri⟩ := Prod.mk.injEq .. ▸ heq
      rw [← hs, ← huri] at hres
      rw [parseCursorLoop_cons_some _ _ _ _ uu hu] at hres
      have hnoprev : ∀ w, ("prev", w) ∉ rest := by
        intro w hw
        have : "prev" ∈ rest.map Prod.fst := List.mem_map.mpr ⟨("prev", w), hw, rfl⟩
        rw [List.map_cons, ← hs] at hnd
        exact (List.nodup_cons.mp hnd).1 this
      rw [parseCursorLoop_Prev_absent rest hnoprev _ res hres, applyLink_prev]
    · cases hu2 : parseRequestURI uri with
      | none => rw [parseCursorLoop_cons_none c s uri rest hu2] at hres; cases hres
      | some w =>
        rw [parseCursorLoop_cons_some c s uri rest w hu2] at hres
        exact ih (by rw [List.map_cons] at hnd; exact (List.nodup_cons.mp hnd).2) hmem2 _ hres

theorem parseCursorLoop_Next_mem (links : List (String × String))
    (hnd : (links.map Prod.fst).Nodup) (u : String) (hmem : ("next", u) ∈ links)
    (uu : GoURL) (hu : parseRequestURI u = some uu) (c : Cursors) (res : Cursors)
    (hres : parseCursorLoop c links = some res) :
    res.Next = valuesGet (parseQuery uu.rawQuery.data) "cursor" := by
  induction links generalizing c with
  | nil => simp at hmem
  | cons q rest ih =>
    obtain ⟨s, uri⟩ := q
    rcases List.mem_cons.mp hmem with heq | hmem2
    · obtain ⟨hs, huri⟩ := Prod.mk.injEq .. ▸ heq
      rw [← hs, ← huri] at hres
      rw [parseCursorLoop_cons_some _ _ _ _ uu hu] at hres
      have hnonext : ∀ w, ("next", w) ∉ rest := by
        intro w hw
        have : "next" ∈ rest.map Prod.fst := List.mem_map.mpr ⟨("next", w), hw, rfl⟩
        rw [List.map_cons, ← hs] at hnd
        exact (List.nodup_cons.mp hnd).1 this
      rw [parseCursorLoop_Next_absent rest hnonext _ res hres, applyLink_next]
    · cases hu2 : parseRequestURI uri with
      | none => rw [parseCursorLoop_cons_none c s uri rest hu2] at hres; cases hres
      | some w =>
        rw [parseCursorLoop_cons_some c s uri rest w hu2] at hres
        exact ih (by rw [List.map_cons] at hnd; exact (List.nodup_cons.mp hnd).2) hmem2 _ hres

/-! ## The claims -/

/-- C10: every request produced by `Client.newRequest` carries the header
`Content-Type: application/json` — including bodiless GET and DELETE
requests — and carries `Authorization: Token <token>` exactly when the
client's configured token is non-empty; an empty token yields a request
without an `Authorization` header. -/
theorem claim_C10 (c : Client) (method : String) (endpoint : GoURL)
    (reqBody : Option Json) :
    ("Content-Type", "application/json") ∈ (newRequest c method endpoint reqBody).headers
    ∧ ((∃ v, ("Authorization", v) ∈ (newRequest c method endpoint reqBody).headers) ↔
        c.token ≠ "")
    ∧ (c.token ≠ "" →
        ("Authorization", "Token " ++ c.token) ∈ (newRequest c method endpoint reqBody).headers) := by
  unfold newRequest
  by_cases h : c.token = ""
  · simp [h]
  · refine ⟨by simp [h], ⟨fun _ => h, fun _ => ⟨"Token " ++ c.token, by simp [h]⟩⟩,
      fun _ => by simp [h]⟩

theorem claim_C10_witness :
    ("Content-Type", "application/json") ∈
        (newRequest (NewClient "secret") "GET"
          { scheme := "https", host := "desec.io", path := "/api/v1/", rawQuery := "" }
          none).headers
    ∧ ("Authorization", "Token secret") ∈
        (newRequest (NewClient "secret") "GET"
          { scheme := "https", host := "desec.io", path := "/api/v1/", rawQuery := "" }
          none).headers :=
  ⟨(claim_C10 (NewClient "secret") "GET"
      { scheme := "https", host := "desec.io", path := "/api/v1/", rawQuery := "" } none).1,
   (claim_C10 (NewClient "secret") "GET"
      { scheme := "https", host := "desec.io", path := "/api/v1/", rawQuery := "" } none).2.2
    (by decide)⟩

/-- C8: `TokensService.Get` returns a nil token and a nil error (`ok none`)
when the response status is 404; a token is returned only on status 200;
every other status and every transport failure yield a non-nil error. -/
theorem claim_C8 (c : Client) (id : String) (ep : GoURL) (resp : HttpResponse)
    (hep : createEndpoint c.baseURL ["auth", "tokens", id] = some ep) :
    (resp.statusCode = 404 →
      TokensService.Get c id (fun _ => Except.ok resp) = Except.ok none)
    ∧ (∀ t, TokensService.Get c id (fun _ => Except.ok resp) = Except.ok (some t) →
        resp.statusCode = 200)
    ∧ (resp.statusCode ≠ 404 → resp.statusCode ≠ 200 →
        ∃ e, TokensService.Get c id (fun _ => Except.ok resp) = Except.error e)
    ∧ (∀ msg, ∃ e, TokensService.Get c id (fun _ => Except.error msg) = Except.error e) := by
  refine ⟨?_, ?_, ?_, ?_⟩
  · intro h404
    unfold TokensService.Get TokensService.GetRequest
    rw [hep]
    simp [h404]
  · intro t h
    unfold TokensService.Get TokensService.GetRequest at h
    rw [hep] at h
    by_cases h404 : resp.statusCode = 404
    · simp [h404] at h
    · by_cases h200 : resp.statusCode = 200
      · exact h200
      · simp [h404, h200] at h
  · intro h404 h200
    unfold TokensService.Get TokensService.GetRequest
    rw [hep]
    simp [h404, h200]
  · intro msg
    unfold TokensService.Get TokensService.GetRequest
    rw [hep]
    simp

theorem claim_C8_witness :
    createEndpoint (NewClient "token").baseURL ["auth", "tokens", "id1"] =
      some { scheme := "https", host := "desec.io", path := "/api/v1/auth/tokens/id1/",
             rawQuery := "" }
    ∧ TokensService.Get (NewClient "token") "id1"
        (fun _ => Except.ok { statusCode := 404, body := Json.null }) = Except.ok none :=
  ⟨by decide,
   (claim_C8 (NewClient "token") "id1"
      { scheme := "https", host := "desec.io", path := "/api/v1/auth/tokens/id1/",
        rawQuery := "" }
      { statusCode := 404, body := Json.null } (by decide)).1 rfl⟩

/-- C1: on a 204 No Content response — the case of a mutation that empties
the record list — `RecordsService.Update` and `RecordsService.Replace`
return a nil record set and a nil error (`ok none`); a non-nil record set is
returned only when the status is 200. -/
theorem claim_C1 (c : Client) (domainName subName recordType : String) (rrSet : RRSet)
    (ep : GoURL) (resp : HttpResponse)
    (hep : createEndpoint c.baseURL
      ["domains", domainName, "rrsets", if subName = "" then ApexZone else subName,
       recordType] = some ep) :
    (resp.statusCode = 204 →
      RecordsService.Update c domainName subName recordType rrSet
          (fun _ => Except.ok resp) = Except.ok none
      ∧ RecordsService.Replace c domainName subName recordType rrSet
          (fun _ => Except.ok resp) = Except.ok none)
    ∧ (∀ r, RecordsService.Update c domainName subName recordType rrSet
        (fun _ => Except.ok resp) = Except.ok (some r) → resp.statusCode = 200)
    ∧ (∀ r, RecordsService.Replace c domainName subName recordType rrSet
        (fun _ => Except.ok resp) = Except.ok (some r) → resp.statusCode = 200) := by
  refine ⟨?_, ?_, ?_⟩
  · intro h204
    constructor
    · unfold RecordsService.Update RecordsService.UpdateRequest
      simp only [hep]
      simp [h204]
    · unfold RecordsService.Replace RecordsService.ReplaceRequest
      simp only [hep]
      simp [h204]
  · intro r h
    unfold RecordsService.Update RecordsService.UpdateRequest at h
    simp only [hep] at h
    by_cases h204 : resp.statusCode = 204
    · simp [h204] at h
    · by_cases h200 : resp.statusCode = 200
      · exact h200
      · simp [h204, h200] at h
  · intro r h
    unfold RecordsService.Replace RecordsService.ReplaceRequest at h
    simp only [hep] at h
    by_cases h204 : resp.statusCode = 204
    · simp [h204] at h
    · by_cases h200 : resp.statusCode = 200
      · exact h200
      · simp [h204, h200] at h

theorem claim_C1_witness :
    createEndpoint (NewClient "token").baseURL
        ["domains", "example.com", "rrsets",
         if ("" : String) = "" then ApexZone else "", "A"] =
      some { scheme := "https", host := "desec.io",
             path := "/api/v1/domains/example.com/rrsets/@/A/", rawQuery := "" }
    ∧ RecordsService.Update (NewClient "token") "example.com" "" "A" {}
        (fun _ => Except.ok { statusCode := 204, body := Json.null }) = Except.ok none
    ∧ RecordsService.Replace (NewClient "token") "example.com" "" "A" {}
        (fun _ => Except.ok { statusCode := 204, body := Json.null }) = Except.ok none := by
  have h := (claim_C1 (NewClient "token") "example.com" "" "A" {}
    { scheme := "https", host := "desec.io",
      path := "/api/v1/domains/example.com/rrsets/@/A/", rawQuery := "" }
    { statusCode := 204, body := Json.null } (by decide)).1 rfl
  exact ⟨by decide, h.1, h.2⟩

/-- C3: `RecordsService.BulkDelete` is `BulkUpdate` in `FullResource` (PUT)
mode on the list of the same length in which every record set equals the
corresponding input with its `Records` field replaced by the empty list, and
it returns success exactly when that `BulkUpdate` call does. -/
theorem claim_C3 (c : Client) (domainName : String) (rrSets : List RRSet)
    (transport : Transport) :
    (rrSets.map (fun rrSet : RRSet => { rrSet with Records := ([] : List String) })).length =
      rrSets.length
    ∧ (∀ i : Nat, (rrSets.map (fun rrSet : RRSet => { rrSet with Records := ([] : List String) }))[i]? =
        rrSets[i]?.map (fun rrSet : RRSet => { rrSet with Records := ([] : List String) }))
    ∧ (RecordsService.BulkDelete c domainName rrSets transport = Except.ok () ↔
        ∃ out, RecordsService.BulkUpdate c FullResource domainName
          (rrSets.map (fun rrSet : RRSet => { rrSet with Records := ([] : List String) }))
          transport = Except.ok out)
    ∧ (∀ e, RecordsService.BulkDelete c domainName rrSets transport = Except.error e ↔
        RecordsService.BulkUpdate c FullResource domainName
          (rrSets.map (fun rrSet : RRSet => { rrSet with Records := ([] : List String) }))
          transport = Except.error e) := by
  refine ⟨List.length_map rrSets _, fun i => by simp, ?_, ?_⟩
  · unfold RecordsService.BulkDelete
    cases h : RecordsService.BulkUpdate c FullResource domainName
        (rrSets.map (fun rrSet : RRSet => { rrSet with Records := ([] : List String) })) transport with
    | error e => simp [h]
    | ok out => simp [h]
  · intro e
    unfold RecordsService.BulkDelete
    cases h : RecordsService.BulkUpdate c FullResource domainName
        (rrSets.map (fun rrSet : RRSet => { rrSet with Records := ([] : List String) })) transport with
    | error e2 => simp [h]
    | ok out => simp [h]

theorem claim_C3_witness :
    RecordsService.BulkDelete (NewClient "token") "example.com"
        [{ SubName := "x", «Type» := "TXT", Records := ["a"], TTL := 300 }]
        (fun req => if req.method = "PUT"
          then Except.ok { statusCode := 200, body := Json.arr [] }
          else Except.error "wrong method") = Except.ok ()
    ∧ ∃ out, RecordsService.BulkUpdate (NewClient "token") FullResource "example.com"
        ([{ SubName := "x", «Type» := "TXT", Records := ["a"], TTL := 300 }].map
          (fun rrSet : RRSet => { rrSet with Records := ([] : List String) }))
        (fun req => if req.method = "PUT"
          then Except.ok { statusCode := 200, body := Json.arr [] }
          else Except.error "wrong method") = Except.ok out := by
  have h := (claim_C3 (NewClient "token") "example.com"
    [{ SubName := "x", «Type» := "TXT", Records := ["a"], TTL := 300 }]
    (fun req => if req.method = "PUT"
      then Except.ok { statusCode := 200, body := Json.arr [] }
      else Except.error "wrong method")).2.2.1
  have hdel : RecordsService.BulkDelete (NewClient "token") "example.com"
      [{ SubName := "x", «Type» := "TXT", Records := ["a"], TTL := 300 }]
      (fun req => if req.method = "PUT"
        then Except.ok { statusCode := 200, body := Json.arr [] }
        else Except.error "wrong method") = Except.ok () := by rfl
  exact ⟨hdel, h.mp hdel⟩

theorem joinSegs_one (s : String) : joinSegs [s] = s := String.ext rfl

theorem joinSegs_cons2 (s t : String) (rest : List String) :
    joinSegs (s :: t :: rest) = s ++ "/" ++ joinSegs (t :: rest) := by
  apply String.ext
  show joinSep '/' ((s :: t :: rest).map String.data) = (s ++ "/" ++ joinSegs (t :: rest)).data
  rw [List.map_cons, joinSep_cons '/' s.data ((t :: rest).map String.data) (by simp)]
  simp only [String.data_append, joinSegs, List.append_assoc]
  rfl

/-- The endpoint path under the default base URL, re-expressed by plain
string concatenation. -/
theorem apexPathEq (d t : String) :
    "/" ++ joinSegs ["api", "v1", "domains", d, "rrsets", "@", t] ++ "/" =
      "/api/v1/domains/" ++ d ++ "/rrsets/@/" ++ t ++ "/" := by
  rw [joinSegs_cons2, joinSegs_cons2, joinSegs_cons2, joinSegs_cons2, joinSegs_cons2,
    joinSegs_cons2, joinSegs_one]
  apply String.ext
  simp only [String.data_append, List.append_assoc]
  rfl

/-- C4: an empty sub-name is replaced by the apex sentinel `@` before the
endpoint is built for `Get`, `Update`, `Replace` and `Delete` — each
operation behaves exactly as when `@` is passed — a non-empty sub-name is
used unchanged, and under the default base URL the built path carries `@`
as its own (never empty) segment. -/
theorem claim_C4 (c : Client) (domainName recordType : String) (rrSet : RRSet)
    (transport : Transport) :
    (RecordsService.Get c domainName "" recordType transport =
      RecordsService.Get c domainName ApexZone recordType transport)
    ∧ (RecordsService.Update c domainName "" recordType rrSet transport =
        RecordsService.Update c domainName ApexZone recordType rrSet transport)
    ∧ (RecordsService.Replace c domainName "" recordType rrSet transport =
        RecordsService.Replace c domainName ApexZone recordType rrSet transport)
    ∧ (RecordsService.Delete c domainName "" recordType transport =
        RecordsService.Delete c domainName ApexZone recordType transport)
    ∧ (∀ subName ep2, subName ≠ "" →
        createEndpoint c.baseURL ["domains", domainName, "rrsets", subName, recordType] =
          some ep2 →
        RecordsService.GetRequest c domainName subName recordType =
            some (newRequest c "GET" ep2 none)
          ∧ RecordsService.UpdateRequest c domainName subName recordType rrSet =
            some (newRequest c "PATCH" ep2 (some (marshalRRSet rrSet)))
          ∧ RecordsService.ReplaceRequest c domainName subName recordType rrSet =
            some (newRequest c "PUT" ep2 (some (marshalRRSet rrSet)))
          ∧ RecordsService.DeleteRequest c domainName subName recordType =
            some (newRequest c "DELETE" ep2 none))
    ∧ (goodSeg domainName → goodSeg recordType →
        ∃ req, RecordsService.GetRequest (NewClient c.token) domainName "" recordType =
            some req
          ∧ req.url.path =
            "/api/v1/domains/" ++ domainName ++ "/rrsets/@/" ++ recordType ++ "/") := by
  refine ⟨rfl, rfl, rfl, rfl, ?_, ?_⟩
  · intro subName ep2 hs hep2
    refine ⟨?_, ?_, ?_, ?_⟩
    · unfold RecordsService.GetRequest
      simp [hs, hep2]
    · unfold RecordsService.UpdateRequest
      simp [hs, hep2]
    · unfold RecordsService.ReplaceRequest
      simp [hs, hep2]
    · unfold RecordsService.DeleteRequest
      simp [hs, hep2]
  · intro hd ht
    have hbase : urlParse (NewClient c.token).baseURL =
        some { scheme := "https", host := "desec.io", path := "/api/v1/", rawQuery := "" } := rfl
    have hgoodparts : ∀ s ∈ ["domains", domainName, "rrsets", "@", recordType], goodSeg s := by
      intro s hs
      simp only [List.mem_cons, List.not_mem_nil, or_false] at hs
      rcases hs with rfl | rfl | rfl | rfl | rfl
      · decide
      · exact hd
      · decide
      · decide
      · exact ht
    have h := createEndpoint_eq (NewClient c.token).baseURL
      { scheme := "https", host := "desec.io", path := "/api/v1/", rawQuery := "" }
      ["api", "v1"] ["domains", domainName, "rrsets", "@", recordType]
      hbase (by decide) hgoodparts (by simp)
    refine ⟨newRequest (NewClient c.token) "GET"
      { scheme := "https", host := "desec.io",
        path := "/" ++ joinSegs ["api", "v1", "domains", domainName, "rrsets", "@",
          recordType] ++ "/", rawQuery := "" }
      none, ?_, ?_⟩
    · unfold RecordsService.GetRequest
      simp [ApexZone, h]
    · exact apexPathEq domainName recordType

theorem claim_C4_witness :
    goodSeg "example.com" ∧ goodSeg "A"
    ∧ ∃ req, RecordsService.GetRequest (NewClient "token") "example.com" "" "A" = some req
        ∧ req.url.path = "/api/v1/domains/" ++ "example.com" ++ "/rrsets/@/" ++ "A" ++ "/" :=
  ⟨by decide, by decide,
   (claim_C4 (NewClient "token") "example.com" "A" {}
      (fun _ => Except.error "unused")).2.2.2.2.2 (by decide) (by decide)⟩

/-- The keys of the marshalled body of a token whose immutable fields are at
their zero values: only the mutable keys can occur. -/
theorem tokenFields_keys (t : Token) (hid : t.ID = "") (hval : t.Value = "")
    (hcr : t.Created = none) (hlu : t.LastUsed = none) (hiv : t.IsValid = false) :
    ∀ k, k ∈ (tokenFields t).map Prod.fst →
      k ∈ (["owner", "user_override", "name", "perm_create_domain", "perm_delete_domain",
            "perm_manage_tokens", "allowed_subnets", "auto_policy"] : List String) := by
  intro k hk
  by_cases h1 : t.Owner = "" <;> by_cases h2 : t.UserOverride = "" <;>
    by_cases h3 : t.Name = "" <;> by_cases h4 : t.AllowedSubnets = ([] : List String) <;>
    (simp [tokenFields, hid, hval, hcr, hlu, hiv, h1, h2, h3, h4] at hk ⊢; tauto)

/-- C9: the body sent by `TokensService.Update` contains only the mutable
field subset (owner, user-override, name, the three permission flags,
allowed subnets, auto-policy); the input token's id, secret value, creation
time, last-use time and validity flag are never serialized, whatever their
values. -/
theorem claim_C9 (c : Client) (id : String) (token : Token) (ep : GoURL)
    (hep : createEndpoint c.baseURL ["auth", "tokens", id] = some ep) :
    ∃ fields, TokensService.UpdateRequest c id token =
        some (newRequest c "PATCH" ep (some (Json.obj fields)))
      ∧ (∀ k, k ∈ fields.map Prod.fst →
          k ∈ (["owner", "user_override", "name", "perm_create_domain", "perm_delete_domain",
                "perm_manage_tokens", "allowed_subnets", "auto_policy"] : List String))
      ∧ "id" ∉ fields.map Prod.fst ∧ "token" ∉ fields.map Prod.fst
      ∧ "created" ∉ fields.map Prod.fst ∧ "last_used" ∉ fields.map Prod.fst
      ∧ "is_valid" ∉ fields.map Prod.fst := by
  have hkeys := tokenFields_keys
    { Owner := token.Owner, UserOverride := token.UserOverride, Name := token.Name,
      PermCreateDomain := token.PermCreateDomain, PermDeleteDomain := token.PermDeleteDomain,
      PermManageTokens := token.PermManageTokens, AllowedSubnets := token.AllowedSubnets,
      AutoPolicy := token.AutoPolicy } rfl rfl rfl rfl rfl
  refine ⟨tokenFields
    { Owner := token.Owner, UserOverride := token.UserOverride, Name := token.Name,
      PermCreateDomain := token.PermCreateDomain, PermDeleteDomain := token.PermDeleteDomain,
      PermManageTokens := token.PermManageTokens, AllowedSubnets := token.AllowedSubnets,
      AutoPolicy := token.AutoPolicy }, ?_, hkeys, ?_, ?_, ?_, ?_, ?_⟩
  · unfold TokensService.UpdateRequest marshalToken
    simp only [hep]
  · intro hmem
    exact absurd (hkeys "id" hmem) (by decide)
  · intro hmem
    exact absurd (hkeys "token" hmem) (by decide)
  · intro hmem
    exact absurd (hkeys "created" hmem) (by decide)
  · intro hmem
    exact absurd (hkeys "last_used" hmem) (by decide)
  · intro hmem
    exact absurd (hkeys "is_valid" hmem) (by decide)

theorem claim_C9_witness :
    createEndpoint (NewClient "token").baseURL ["auth", "tokens", "id1"] =
      some { scheme := "https", host := "desec.io", path := "/api/v1/auth/tokens/id1/",
             rawQuery := "" }
    ∧ ∃ fields, TokensService.UpdateRequest (NewClient "token") "id1"
        { ID := "secret-id", Value := "secret", Name := "n", IsValid := true,
          Created := some "2020-05-06T11:46:07Z", AllowedSubnets := ["1.2.3.0/24"] } =
        some (newRequest (NewClient "token") "PATCH"
          { scheme := "https", host := "desec.io", path := "/api/v1/auth/tokens/id1/",
            rawQuery := "" } (some (Json.obj fields)))
      ∧ (∀ k, k ∈ fields.map Prod.fst →
          k ∈ (["owner", "user_override", "name", "perm_create_domain", "perm_delete_domain",
                "perm_manage_tokens", "allowed_subnets", "auto_policy"] : List String))
      ∧ "id" ∉ fields.map Prod.fst ∧ "token" ∉ fields.map Prod.fst
      ∧ "created" ∉ fields.map Prod.fst ∧ "last_used" ∉ fields.map Prod.fst
      ∧ "is_valid" ∉ fields.map Prod.fst :=
  ⟨by decide,
   claim_C9 (NewClient "token") "id1"
     { ID := "secret-id", Value := "secret", Name := "n", IsValid := true,
       Created := some "2020-05-06T11:46:07Z", AllowedSubnets := ["1.2.3.0/24"] }
     { scheme := "https", host := "desec.io", path := "/api/v1/auth/tokens/id1/",
       rawQuery := "" } (by decide)⟩

/-- C7: `TokenPoliciesService.Create` always serializes the `domain`,
`subname` and `type` fields — an absent scoping value is an explicit JSON
`null`, never a missing key — and a policy created with all three scoping
fields nil and write-permission false round-trips through `Create` (against
a server echoing the request body) with exactly those nil/false values. -/
theorem claim_C7 (c : Client) (tokenID : String) (ep : GoURL)
    (hep : createEndpoint c.baseURL ["auth", "tokens", tokenID, "policies", "rrsets"] =
      some ep) :
    (∀ policy : TokenPolicy,
      TokenPoliciesService.CreateRequest c tokenID policy =
        some (newRequest c "POST" ep (some (Json.obj (tokenPolicyFields policy))))
      ∧ (tokenPolicyFields policy).lookup "domain" = some (jsonOfNullableStr policy.Domain)
      ∧ (tokenPolicyFields policy).lookup "subname" = some (jsonOfNullableStr policy.SubName)
      ∧ (tokenPolicyFields policy).lookup "type" = some (jsonOfNullableStr policy.«Type»))
    ∧ TokenPoliciesService.Create c tokenID
        { ID := "", Domain := none, SubName := none, «Type» := none, WritePermission := false }
        (fun req => Except.ok { statusCode := 201, body := req.body.getD Json.null }) =
      Except.ok { ID := "", Domain := none, SubName := none, «Type» := none,
                  WritePermission := false } := by
  constructor
  · intro policy
    refine ⟨?_, ?_, ?_, ?_⟩
    · unfold TokenPoliciesService.CreateRequest marshalTokenPolicy
      simp only [hep]
    · by_cases h1 : policy.ID = "" <;> by_cases h2 : policy.WritePermission <;>
        simp [tokenPolicyFields, h1, h2, List.lookup]
    · by_cases h1 : policy.ID = "" <;> by_cases h2 : policy.WritePermission <;>
        simp [tokenPolicyFields, h1, h2, List.lookup]
    · by_cases h1 : policy.ID = "" <;> by_cases h2 : policy.WritePermission <;>
        simp [tokenPolicyFields, h1, h2, List.lookup]
  · unfold TokenPoliciesService.Create TokenPoliciesService.CreateRequest
    simp only [hep]
    rfl

theorem claim_C7_witness :
    createEndpoint (NewClient "token").baseURL
        ["auth", "tokens", "aaa", "policies", "rrsets"] =
      some { scheme := "https", host := "desec.io",
             path := "/api/v1/auth/tokens/aaa/policies/rrsets/", rawQuery := "" }
    ∧ TokenPoliciesService.Create (NewClient "token") "aaa"
        { ID := "", Domain := none, SubName := none, «Type» := none, WritePermission := false }
        (fun req => Except.ok { statusCode := 201, body := req.body.getD Json.null }) =
      Except.ok { ID := "", Domain := none, SubName := none, «Type» := none,
                  WritePermission := false } :=
  ⟨by decide,
   (claim_C7 (NewClient "token") "aaa"
     { scheme := "https", host := "desec.io",
       path := "/api/v1/auth/tokens/aaa/policies/rrsets/", rawQuery := "" } (by decide)).2⟩

/-- C6: for every Link header whose relations lie in first/prev/next, are
free of duplicates (the Go header parse returns a map keyed by relation) and
whose URIs all parse, `parseCursor` succeeds; an absent relation leaves its
cursor field empty and a present relation's field is the `cursor` query
parameter of its URI; and whenever any relation of a header carries a
malformed URI, the whole parse fails. -/
theorem claim_C6 (links : List (String × String))
    (_hsub : ∀ p ∈ links, p.1 ∈ (["first", "prev", "next"] : List String))
    (hnd : (links.map Prod.fst).Nodup)
    (hwf : ∀ p ∈ links, (parseRequestURI p.2).isSome = true) :
    (∃ res, parseCursor links = some res
      ∧ ((∀ w, ("first", w) ∉ links) → res.First = "")
      ∧ ((∀ w, ("prev", w) ∉ links) → res.Prev = "")
      ∧ ((∀ w, ("next", w) ∉ links) → res.Next = "")
      ∧ (∀ u uu, ("first", u) ∈ links → parseRequestURI u = some uu →
          res.First = valuesGet (parseQuery uu.rawQuery.data) "cursor")
      ∧ (∀ u uu, ("prev", u) ∈ links → parseRequestURI u = some uu →
          res.Prev = valuesGet (parseQuery uu.rawQuery.data) "cursor")
      ∧ (∀ u uu, ("next", u) ∈ links → parseRequestURI u = some uu →
          res.Next = valuesGet (parseQuery uu.rawQuery.data) "cursor"))
    ∧ (∀ (links2 : List (String × String)) (p : String × String), p ∈ links2 →
        parseRequestURI p.2 = none → parseCursor links2 = none) := by
  constructor
  · obtain ⟨res, hres⟩ :=
      parseCursorLoop_isSome links hwf { First := "", Prev := "", Next := "" }
    refine ⟨res, hres, ?_, ?_, ?_, ?_, ?_, ?_⟩
    · intro habs
      exact parseCursorLoop_First_absent links habs _ res hres
    · intro habs
      exact parseCursorLoop_Prev_absent links habs _ res hres
    · intro habs
      exact parseCursorLoop_Next_absent links habs _ res hres
    · intro u uu hmem hu
      exact parseCursorLoop_First_mem links hnd u hmem uu hu _ res hres
    · intro u uu hmem hu
      exact parseCursorLoop_Prev_mem links hnd u hmem uu hu _ res hres
    · intro u uu hmem hu
      exact parseCursorLoop_Next_mem links hnd u hmem uu hu _ res hres
  · intro links2 p hp hbad
    exact parseCursorLoop_malformed links2 p hp hbad _

/-- C6 witness: a header with only `prev` and `next` relations parses to
empty `First` and the two URIs' cursor values. -/
theorem claim_C6_witness :
    (∀ p ∈ ([("prev", "/v?cursor=pc"), ("next", "/v?cursor=nc")] :
        List (String × String)), p.1 ∈ (["first", "prev", "next"] : List String))
    ∧ (([("prev", "/v?cursor=pc"), ("next", "/v?cursor=nc")].map Prod.fst)).Nodup
    ∧ (∀ p ∈ ([("prev", "/v?cursor=pc"), ("next", "/v?cursor=nc")] :
        List (String × String)), (parseRequestURI p.2).isSome = true)
    ∧ ((∃ res,
        parseCursor [("prev", "/v?cursor=pc"), ("next", "/v?cursor=nc")] = some res
        ∧ ((∀ w, ("first", w) ∉ ([("prev", "/v?cursor=pc"), ("next", "/v?cursor=nc")] :
            List (String × String))) → res.First = "")
        ∧ ((∀ w, ("prev", w) ∉ ([("prev", "/v?cursor=pc"), ("next", "/v?cursor=nc")] :
            List (String × String))) → res.Prev = "")
        ∧ ((∀ w, ("next", w) ∉ ([("prev", "/v?cursor=pc"), ("next", "/v?cursor=nc")] :
            List (String × String))) → res.Next = "")
        ∧ (∀ u uu, ("first", u) ∈ ([("prev", "/v?cursor=pc"), ("next", "/v?cursor=nc")] :
            List (String × String)) → parseRequestURI u = some uu →
            res.First = valuesGet (parseQuery uu.rawQuery.data) "cursor")
        ∧ (∀ u uu, ("prev", u) ∈ ([("prev", "/v?cursor=pc"), ("next", "/v?cursor=nc")] :
            List (String × String)) → parseRequestURI u = some uu →
            res.Prev = valuesGet (parseQuery uu.rawQuery.data) "cursor")
        ∧ (∀ u uu, ("next", u) ∈ ([("prev", "/v?cursor=pc"), ("next", "/v?cursor=nc")] :
            List (String × String)) → parseRequestURI u = some uu →
            res.Next = valuesGet (parseQuery uu.rawQuery.data) "cursor"))
      ∧ (∀ (links2 : List (String × String)) (p : String × String), p ∈ links2 →
          parseRequestURI p.2 = none → parseCursor links2 = none)) :=
  ⟨by decide, by decide, by decide,
   claim_C6 [("prev", "/v?cursor=pc"), ("next", "/v?cursor=nc")]
     (by decide) (by decide) (by decide)⟩

/-- C2: on `RecordsService.GetAll` a nil filter adds no query parameters; for
a non-nil filter a field equal to `IgnoreFilter` is omitted from the query
entirely, while any other value — the empty string included — is sent as
that field's constraint (stated over ASCII filter values, the domain of the
query-escaping model). -/
theorem claim_C2 (c : Client) (domainName : String) (ep : GoURL) (f : RRSetFilter)
    (hep : createEndpoint c.baseURL ["domains", domainName, "rrsets"] = some ep)
    (hq : ep.rawQuery = "")
    (haT : ∀ ch ∈ f.«Type».data, ch.toNat < 128)
    (haS : ∀ ch ∈ f.SubName.data, ch.toNat < 128) :
    (∀ req, RecordsService.GetAllRequest c domainName none = some req →
      req.url.rawQuery = "")
    ∧ (∀ req, RecordsService.GetAllRequest c domainName (some f) = some req →
      (parseQuery req.url.rawQuery.data).lookup "type" =
        (if f.«Type» = IgnoreFilter then none else some [f.«Type»])
      ∧ (parseQuery req.url.rawQuery.data).lookup "subname" =
        (if f.SubName = IgnoreFilter then none else some [f.SubName])) := by
  constructor
  · intro req h
    unfold RecordsService.GetAllRequest at h
    simp only [hep] at h
    obtain rfl : newRequest c "GET" ep none = req := Option.some.inj h
    exact hq
  · intro req h
    unfold RecordsService.GetAllRequest at h
    simp only [hep, hq] at h
    by_cases hT : f.«Type» = IgnoreFilter <;> by_cases hS : f.SubName = IgnoreFilter
    · rw [if_neg (fun hh => hh hS), if_neg (fun hh => hh hT)] at h
      obtain rfl := Option.some.inj h
      exact ⟨by rw [if_pos hT]; rfl, by rw [if_pos hS]; rfl⟩
    · rw [if_pos hS, if_neg (fun hh => hh hT)] at h
      obtain rfl := Option.some.inj h
      constructor
      · show (parseQuery ((valuesEncode
            [(("subname" : String), [f.SubName])]).asString).data).lookup "type" =
          (if f.«Type» = IgnoreFilter then none else some [f.«Type»])
        rw [show ((valuesEncode [(("subname" : String), [f.SubName])]).asString).data =
              queryEscape ("subname" : String).data ++ '=' :: queryEscape f.SubName.data
            from rfl,
          parseQuery_encode_one "subname" f.SubName (by decide) (by decide) haS,
          if_pos hT]
        rfl
      · show (parseQuery ((valuesEncode
            [(("subname" : String), [f.SubName])]).asString).data).lookup "subname" =
          (if f.SubName = IgnoreFilter then none else some [f.SubName])
        rw [show ((valuesEncode [(("subname" : String), [f.SubName])]).asString).data =
              queryEscape ("subname" : String).data ++ '=' :: queryEscape f.SubName.data
            from rfl,
          parseQuery_encode_one "subname" f.SubName (by decide) (by decide) haS,
          if_neg hS]
        rfl
    · rw [if_neg (fun hh => hh hS), if_pos hT] at h
      obtain rfl := Option.some.inj h
      constructor
      · show (parseQuery ((valuesEncode
            [(("type" : String), [f.«Type»])]).asString).data).lookup "type" =
          (if f.«Type» = IgnoreFilter then none else some [f.«Type»])
        rw [show ((valuesEncode [(("type" : String), [f.«Type»])]).asString).data =
              queryEscape ("type" : String).data ++ '=' :: queryEscape f.«Type».data
            from rfl,
          parseQuery_encode_one "type" f.«Type» (by decide) (by decide) haT,
          if_neg hT]
        rfl
      · show (parseQuery ((valuesEncode
            [(("type" : String), [f.«Type»])]).asString).data).lookup "subname" =
          (if f.SubName = IgnoreFilter then none else some [f.SubName])
        rw [show ((valuesEncode [(("type" : String), [f.«Type»])]).asString).data =
              queryEscape ("type" : String).data ++ '=' :: queryEscape f.«Type».data
            from rfl,
          parseQuery_encode_one "type" f.«Type» (by decide) (by decide) haT,
          if_pos hS]
        rfl
    · rw [if_pos hS, if_pos hT] at h
      obtain rfl := Option.some.inj h
      constructor
      · show (parseQuery ((valuesEncode
            [(("type" : String), [f.«Type»]), (("subname" : String), [f.SubName])]
          ).asString).data).lookup "type" =
          (if f.«Type» = IgnoreFilter then none else some [f.«Type»])
        rw [show ((valuesEncode
              [(("type" : String), [f.«Type»]), (("subname" : String), [f.SubName])]
            ).asString).data =
            (queryEscape ("subname" : String).data ++ '=' :: queryEscape f.SubName.data) ++
              '&' :: (queryEscape ("type" : String).data ++ '=' :: queryEscape f.«Type».data)
            from rfl,
          parseQuery_encode_two "subname" f.SubName "type" f.«Type»
            (by decide) (by decide) (by decide) haS (by decide) haT,
          if_neg hT]
        rfl
      · show (parseQuery ((valuesEncode
            [(("type" : String), [f.«Type»]), (("subname" : String), [f.SubName])]
          ).asString).data).lookup "subname" =
          (if f.SubName = IgnoreFilter then none else some [f.SubName])
        rw [show ((valuesEncode
              [(("type" : String), [f.«Type»]), (("subname" : String), [f.SubName])]
            ).asString).data =
            (queryEscape ("subname" : String).data ++ '=' :: queryEscape f.SubName.data) ++
              '&' :: (queryEscape ("type" : String).data ++ '=' :: queryEscape f.«Type».data)
            from rfl,
          parseQuery_encode_two "subname" f.SubName "type" f.«Type»
            (by decide) (by decide) (by decide) haS (by decide) haT,
          if_neg hS]
        rfl

/-- C2 witness: a filter of record type `A` and empty (apex) sub-name sends
both constraints — the empty sub-name included — and a nil filter sends
none. -/
theorem claim_C2_witness :
    (createEndpoint (NewClient "t").baseURL ["domains", "example.com", "rrsets"] =
      some { scheme := "https", host := "desec.io",
             path := "/api/v1/domains/example.com/rrsets/", rawQuery := "" })
    ∧ (∀ req, RecordsService.GetAllRequest (NewClient "t") "example.com" none = some req →
        req.url.rawQuery = "")
    ∧ (∀ req,
        RecordsService.GetAllRequest (NewClient "t") "example.com"
            (some { «Type» := "A", SubName := "" }) = some req →
        (parseQuery req.url.rawQuery.data).lookup "type" = some ["A"]
        ∧ (parseQuery req.url.rawQuery.data).lookup "subname" = some [""]) := by
  have h := claim_C2 (NewClient "t") "example.com"
    { scheme := "https", host := "desec.io",
      path := "/api/v1/domains/example.com/rrsets/", rawQuery := "" }
    { «Type» := "A", SubName := "" } (by decide) rfl (by decide) (by decide)
  exact ⟨by decide, h.1, fun req hreq => ⟨(h.2 req hreq).1, (h.2 req hreq).2⟩⟩

/-- Every base segment of a `basePathSpec` description is a good segment. -/
theorem basePathSpec_good (p : String) (bsegs : List String)
    (h : basePathSpec p bsegs) : ∀ s ∈ bsegs, goodSeg s := by
  intro s hs
  rcases h with ⟨-, hb⟩ | ⟨-, hsegs, hgoodraw⟩
  · rw [hb] at hs
    simp at hs
  · have hmem0 : s.data ∈ bsegs.map String.data := List.mem_map.mpr ⟨s, hs, rfl⟩
    rw [← hsegs] at hmem0
    have hmem := List.mem_filter.mp hmem0
    rcases hgoodraw _ hmem.1 with h0 | h0
    · exact absurd h0 (by simpa using hmem.2)
    · exact h0

/-- The last character of a slash-join of non-empty segments is the last
character of one of the segments. -/
theorem joinSep_getLast? (sep : Char) (segs : List (List Char)) (hne : segs ≠ [])
    (hgood : ∀ s ∈ segs, s ≠ []) :
    ∃ s ∈ segs, (joinSep sep segs).getLast? = s.getLast? := by
  induction segs with
  | nil => exact absurd rfl hne
  | cons a rest ih =>
    cases rest with
    | nil => exact ⟨a, List.mem_cons_self a [], rfl⟩
    | cons b bs =>
      obtain ⟨s, hs, hlast⟩ := ih (by simp)
        (fun x hx => hgood x (List.mem_cons_of_mem a hx))
      have hJ : joinSep sep (b :: bs) ≠ [] :=
        joinSep_ne_nil sep b bs (hgood b (List.mem_cons_of_mem a (List.mem_cons_self b bs)))
      refine ⟨s, List.mem_cons_of_mem a hs, ?_⟩
      rw [joinSep_cons sep a (b :: bs) (by simp),
        List.getLast?_append_of_ne_nil a (by simp),
        show (sep :: joinSep sep (b :: bs)) = [sep] ++ joinSep sep (b :: bs) from rfl,
        List.getLast?_append_of_ne_nil [sep] hJ, hlast]

/-- C5 (amended): for every base URL that parses with a path made of good
segments and every list of good extra segments, `createEndpoint` produces a
URL keeping the base's scheme and host, whose path is the base segments
followed by the given segments in order with exactly one trailing slash;
any pre-existing query of the base is dropped (the query is empty), and
re-building from the produced URL with no further segments reproduces it. -/
theorem claim_C5 (baseURL : String) (base : GoURL) (bsegs parts : List String)
    (hparse : urlParse baseURL = some base)
    (hbase : basePathSpec base.path bsegs)
    (hparts : ∀ s ∈ parts, goodSeg s)
    (hne : bsegs ++ parts ≠ []) :
    ∃ ep, createEndpoint baseURL parts = some ep
      ∧ ep.scheme = base.scheme ∧ ep.host = base.host
      ∧ ep.path = "/" ++ joinSegs (bsegs ++ parts) ++ "/"
      ∧ ep.path.data.getLast? = some '/'
      ∧ ep.path.data.dropLast.getLast? ≠ some '/'
      ∧ ep.rawQuery = ""
      ∧ (∀ b2 : String, urlParse b2 = some ep → createEndpoint b2 [] = some ep) := by
  have hgood : ∀ s ∈ bsegs ++ parts, goodSeg s := by
    intro s hs
    rcases List.mem_append.mp hs with h0 | h0
    · exact basePathSpec_good base.path bsegs hbase s h0
    · exact hparts s h0
  have hSEGSne : (bsegs ++ parts).map String.data ≠ [] :=
    fun hh => hne (List.map_eq_nil_iff.mp hh)
  have hd : ("/" ++ joinSegs (bsegs ++ parts) ++ "/").data =
      ('/' :: (joinSegs (bsegs ++ parts)).data) ++ ['/'] := by
    rw [String.data_append, String.data_append]
    rfl
  refine ⟨_, createEndpoint_eq baseURL base bsegs parts hparse hbase hparts hne,
    rfl, rfl, rfl, ?_, ?_, rfl, ?_⟩
  · show (("/" ++ joinSegs (bsegs ++ parts) ++ "/").data).getLast? = some '/'
    rw [hd, List.getLast?_concat]
  · show ((("/" ++ joinSegs (bsegs ++ parts) ++ "/").data).dropLast).getLast? ≠ some '/'
    rw [hd, List.dropLast_concat]
    obtain ⟨s, hsmem, hlast⟩ := joinSep_getLast? '/' ((bsegs ++ parts).map String.data)
      hSEGSne (fun x hx => by
        obtain ⟨y, hy, rfl⟩ := List.mem_map.mp hx
        exact (hgood y hy).1)
    have hJne : joinSep '/' ((bsegs ++ parts).map String.data) ≠ [] := by
      cases hp : (bsegs ++ parts).map String.data with
      | nil => exact absurd hp hSEGSne
      | cons a b =>
        have ha : a ∈ (bsegs ++ parts).map String.data := hp ▸ List.mem_cons_self a b
        obtain ⟨y, hy, hya⟩ := List.mem_map.mp ha
        exact hp ▸ joinSep_ne_nil '/' a b (hya ▸ (hgood y hy).1)
    rw [show ('/' :: (joinSegs (bsegs ++ parts)).data) =
          ['/'] ++ joinSep '/' ((bsegs ++ parts).map String.data) from rfl,
      List.getLast?_append_of_ne_nil ['/'] hJne, hlast]
    intro hsl
    have hslash : '/' ∈ s := List.mem_of_getLast?_eq_some hsl
    obtain ⟨y, hy, rfl⟩ := List.mem_map.mp hsmem
    exact (hgood y hy).2.2.2.1 hslash
  · intro b2 hb2
    exact createEndpoint_rebuild b2 _ (bsegs ++ parts) hgood hne hb2 rfl rfl

/-- C5 counterexample: a pre-existing query on the base URL is NOT
preserved — the joined path is resolved as a reference against the base,
which (as `net/url.ResolveReference` does) replaces the base's query with
the reference's own, empty, query. -/
theorem claim_C5_counterexample :
    createEndpoint "https://desec.io/api/v1/?x=1" ["domains"] =
      some { scheme := "https", host := "desec.io",
             path := "/api/v1/domains/", rawQuery := "" }
    ∧ ("" : String) ≠ "x=1" := by
  exact ⟨by decide, by decide⟩

/-- C5 witness: the default base URL with one extra segment. -/
theorem claim_C5_witness :
    urlParse defaultBaseURL =
      some { scheme := "https", host := "desec.io", path := "/api/v1/", rawQuery := "" }
    ∧ (∃ ep, createEndpoint defaultBaseURL ["domains"] = some ep
        ∧ ep.scheme = "https" ∧ ep.host = "desec.io"
        ∧ ep.path = "/" ++ joinSegs (["api", "v1"] ++ ["domains"]) ++ "/"
        ∧ ep.path.data.getLast? = some '/'
        ∧ ep.path.data.dropLast.getLast? ≠ some '/'
        ∧ ep.rawQuery = ""
        ∧ (∀ b2 : String, urlParse b2 = some ep → createEndpoint b2 [] = some ep)) :=
  ⟨by decide,
   claim_C5 defaultBaseURL
     { scheme := "https", host := "desec.io", path := "/api/v1/", rawQuery := "" }
     ["api", "v1"] ["domains"] (by decide) (by decide) (by decide) (by decide)⟩

end Desec
